import Mathlib

/-!
# Frame-based sprite animation (`common/animation.go`) and the movie-clip
parser (`format/mc/parse.go`)

Shallow embedding of the Go code.

Modelling conventions.
* `float32` values (`Rate`, `change`, the tick delta, point coordinates) are
  exact rationals: the code only adds, compares and takes absolute values, and
  rounding, infinities and NaN are outside the model.
* Go `int` values are `Int`.  No arithmetic in the modelled code can leave the
  64-bit range on values bounded by a slice length.
* A `*Animation` that may be `nil` is an `Option Animation`; a clip is
  identified with its value (clip definitions are not mutated during playback).
  `*Frame` and `*engo.Point` inside a clip are taken non-nil, as the parser
  builds them.
* A Go map is a total lookup function into `Option`; a missing key and a stored
  `nil` pointer both read as `none`, exactly as `m[k]` reads them.
* A run-time panic is the `Except.error` result.
-/

namespace Engo

/-- Run-time panics of the Go program that the model distinguishes. -/
inductive Panic where
  | nilDereference
  | indexOutOfRange
  | makesliceCap
  deriving DecidableEq, Repr

/-- Type `engo.Point`: a pair of `float32` coordinates. -/
structure Point where
  X : ℚ
  Y : ℚ
  deriving DecidableEq, Repr

/-- Type `common.Frame`. -/
structure Frame where
  Index : Int
  Bias : Point
  deriving DecidableEq, Repr

/-- Type `common.Animation`. -/
structure Animation where
  Name : String
  Frames : List Frame
  Loop : Bool
  deriving DecidableEq, Repr

/-- Type `common.AnimationComponent`; `D` is the `Drawable` interface type.
The private field `def` is spelled `def_`. -/
structure AnimationComponent (D : Type) where
  Drawables : List D
  Animations : String → Option Animation
  CurrentAnimation : Option Animation
  Rate : ℚ
  index : Int
  change : ℚ
  def_ : Option Animation

/-- Go's bounds-checked element read `xs[i]` on a slice. -/
def indexSlice {α : Type} (xs : List α) (i : Int) : Except Panic α :=
  if i < 0 then .error .indexOutOfRange
  else
    match xs[i.toNat]? with
    | some x => .ok x
    | none => .error .indexOutOfRange

/-- Function `NewAnimationComponent`. -/
def NewAnimationComponent {D : Type} (drawables : List D) (rate : ℚ) : AnimationComponent D :=
  { Drawables := drawables
    Animations := fun _ => none
    CurrentAnimation := none
    Rate := rate
    index := 0
    change := 0
    def_ := none }

/-- Method `SelectAnimationByName`. -/
def SelectAnimationByName {D : Type} (ac : AnimationComponent D) (name : String) :
    AnimationComponent D :=
  { ac with CurrentAnimation := ac.Animations name, index := 0 }

/-- Method `SelectAnimationByAction`. -/
def SelectAnimationByAction {D : Type} (ac : AnimationComponent D) (action : Option Animation) :
    AnimationComponent D :=
  { ac with CurrentAnimation := action, index := 0 }

/-- Method `AddAnimation`; reading `action.Name` panics on a nil action. -/
def AddAnimation {D : Type} (ac : AnimationComponent D) (action : Option Animation) :
    Except Panic (AnimationComponent D) :=
  match action with
  | none => .error .nilDereference
  | some a =>
    .ok { ac with Animations := fun k => if k = a.Name then some a else ac.Animations k }

/-- Method `AddDefaultAnimation`. -/
def AddDefaultAnimation {D : Type} (ac : AnimationComponent D) (action : Option Animation) :
    Except Panic (AnimationComponent D) :=
  match AddAnimation ac action with
  | .error p => .error p
  | .ok ac1 => .ok { ac1 with def_ := action }

/-- Method `AddAnimations`. -/
def AddAnimations {D : Type} (ac : AnimationComponent D) :
    List (Option Animation) → Except Panic (AnimationComponent D)
  | [] => .ok ac
  | action :: rest =>
    match AddAnimation ac action with
    | .error p => .error p
    | .ok ac1 => AddAnimations ac1 rest

/-- Method `Frame`; the inner `none` is the returned nil frame. -/
def AnimationComponent.Frame {D : Type} (ac : AnimationComponent D) :
    Except Panic (Option Frame) :=
  match ac.CurrentAnimation with
  | none => .error .nilDereference
  | some cur =>
    if cur.Frames.length = 0 then .ok none
    else
      match indexSlice cur.Frames ac.index with
      | .error p => .error p
      | .ok frame => .ok (some frame)

/-- Method `Cell`. -/
def Cell {D : Type} (ac : AnimationComponent D) : Except Panic D :=
  match ac.Frame with
  | .error p => .error p
  | .ok none => indexSlice ac.Drawables 0
  | .ok (some frame) => indexSlice ac.Drawables frame.Index

/-- Method `Bias`. -/
def Bias {D : Type} (ac : AnimationComponent D) (position : Point) : Except Panic Point :=
  match ac.Frame with
  | .error p => .error p
  | .ok none => .ok position
  | .ok (some frame) => .ok { X := |frame.Bias.X|, Y := |frame.Bias.Y| }

/-- Method `NextFrame`. -/
def NextFrame {D : Type} (ac : AnimationComponent D) : Except Panic (AnimationComponent D) :=
  match ac.CurrentAnimation with
  | none => .error .nilDereference
  | some cur =>
    if cur.Frames.length = 0 then .ok ac
    else
      let ac1 := { ac with index := ac.index + 1, change := 0 }
      if ac1.index ≥ (cur.Frames.length : Int) then
        let ac2 := { ac1 with index := 0 }
        if !cur.Loop then .ok { ac2 with CurrentAnimation := none }
        else .ok ac2
      else .ok ac1

/-- The part of `common.RenderComponent` that `Update` writes. -/
structure RenderComponent (D : Type) where
  Drawable : D

/-- The part of `common.SpaceComponent` that `Update` reads and writes. -/
structure SpaceComponent where
  Position : Point
  deriving DecidableEq, Repr

/-- Type `animationEntity`; each tracked entity owns its three components. -/
structure animationEntity (D : Type) where
  AnimationComponent : AnimationComponent D
  RenderComponent : RenderComponent D
  SpaceComponent : SpaceComponent

/-- Body of the loop of `AnimationSystem.Update` for one tracked entity `e`. -/
def updateEntity {D : Type} (dt : ℚ) (e : animationEntity D) : Except Panic (animationEntity D) :=
  let selected : Option (AnimationComponent D) :=
    match e.AnimationComponent.CurrentAnimation with
    | none =>
      match e.AnimationComponent.def_ with
      | none => none
      | some d => some (SelectAnimationByAction e.AnimationComponent (some d))
    | some _ => some e.AnimationComponent
  match selected with
  | none => .ok e
  | some ac0 =>
    let ac := { ac0 with change := ac0.change + dt }
    if ac.change ≥ ac.Rate then
      match Cell ac with
      | .error p => .error p
      | .ok drawable =>
        match Bias ac e.SpaceComponent.Position with
        | .error p => .error p
        | .ok position =>
          match NextFrame ac with
          | .error p => .error p
          | .ok ac3 =>
            .ok { AnimationComponent := ac3
                  RenderComponent := { e.RenderComponent with Drawable := drawable }
                  SpaceComponent := { e.SpaceComponent with Position := position } }
    else .ok { e with AnimationComponent := ac }

/-- Type `AnimationSystem`: the map `entities` as a list of (id, entity) entries with
distinct ids, `none` being the nil map of a system that never tracked an entity. -/
structure AnimationSystem (D : Type) where
  entities : Option (List (Nat × animationEntity D))

/-- The loop of `AnimationSystem.Update` over the tracked entities; a panic in one loop
body aborts the call. -/
def updateAll {D : Type} (dt : ℚ) :
    List (Nat × animationEntity D) → Except Panic (List (Nat × animationEntity D))
  | [] => .ok []
  | (id, e) :: rest =>
    match updateEntity dt e with
    | .error p => .error p
    | .ok e1 =>
      match updateAll dt rest with
      | .error p => .error p
      | .ok rest1 => .ok ((id, e1) :: rest1)

/-- Method `AnimationSystem.Update`; ranging over a nil map runs no loop body. -/
def Update {D : Type} (dt : ℚ) (a : AnimationSystem D) : Except Panic (AnimationSystem D) :=
  match a.entities with
  | none => .ok a
  | some es =>
    match updateAll dt es with
    | .error p => .error p
    | .ok es1 => .ok { entities := some es1 }

/-- Repeated calls of `NextFrame`: `k` calls in a row, stopping at a panic. -/
def nextFrames {D : Type} : Nat → AnimationComponent D → Except Panic (AnimationComponent D)
  | 0, ac => .ok ac
  | k + 1, ac =>
    match NextFrame ac with
    | .error p => .error p
    | .ok ac1 => nextFrames k ac1

/-! ## The movie-clip parser (`format/mc/parse.go`) -/

/-- Modelled from the spec: a flat frame entry of the descriptor, naming a region and
carrying a pixel offset (the type is declared outside `parse.go`). -/
structure RawFrame where
  ResourceName : String
  X : Int
  Y : Int
  deriving DecidableEq, Repr

/-- Modelled from the spec: a labelled range, with its 1-based start frame and its end
frame (the type is declared outside `parse.go`). -/
structure Label where
  Name : String
  FrameStart : Int
  FrameEnd : Int
  deriving DecidableEq, Repr

/-- Modelled from the spec: one top-level movie-clip group with its ordered labels and its
frame entries (the type is declared outside `parse.go`). -/
structure McItem where
  Labels : List Label
  Frames : List RawFrame
  deriving DecidableEq, Repr

/-- Modelled from the spec: a named rectangle of the atlas (the type is declared outside
`parse.go`). -/
structure Region where
  X : Int
  Y : Int
  W : Int
  H : Int
  deriving DecidableEq, Repr

/-- Modelled from the spec: the decoded resource descriptor (the type is declared outside
`parse.go`); `Mc` lists the groups in the order in which the `range` loops of the run at
hand visit them.  Neither the source nor the specification fixes that order: another run
on the same payload may see the same groups in another order (see `visiting`). -/
structure MovieClip where
  File : String
  Mc : List McItem
  Regions : String → Option Region

/-- The fields of `MovieClipResource` that the label loop of `parseMC` writes. -/
structure MovieClipResource where
  Actions : List Animation
  DefaultAction : Option Animation
  deriving DecidableEq, Repr

/-- Whether `sub` is a prefix of the character list. -/
def hasPrefixChars : List Char → List Char → Bool
  | _, [] => true
  | [], _ :: _ => false
  | c :: cs, d :: ds => c == d && hasPrefixChars cs ds

/-- Whether `sub` occurs as a contiguous run in the character list. -/
def containsChars : List Char → List Char → Bool
  | [], sub => sub.isEmpty
  | c :: cs, sub => hasPrefixChars (c :: cs) sub || containsChars cs sub

/-- Go's `strings.Contains(s, substr)`. -/
def stringsContains (s substr : String) : Bool :=
  containsChars s.data substr.data

/-- Go's slice expression `xs[lo:hi]`, the capacity of `xs` being its length. -/
def sliceRange {α : Type} (xs : List α) (lo hi : Int) : Except Panic (List α) :=
  if lo < 0 ∨ hi < lo ∨ (xs.length : Int) < hi then .error .indexOutOfRange
  else .ok ((xs.drop lo.toNat).take (hi.toNat - lo.toNat))

/-- Go's `make([]T, 0, cap)`: an empty slice, or a panic on a negative capacity. -/
def makeEmpty (α : Type) (cap : Int) : Except Panic (List α) :=
  if cap < 0 then .error .makesliceCap else .ok []

/-- The innermost loop of `parseMC` (`parse.go`, lines 50-59): for every raw frame append
a `Frame` carrying the running `index`, then increment `index`. -/
def frameLoop : List RawFrame → List Frame × Int → List Frame × Int
  | [], st => st
  | frame :: rest, (frames, index) =>
    frameLoop rest (frames ++ [{ Index := index, Bias := { X := frame.X, Y := frame.Y } }],
      index + 1)

/-- The body of the label loop of `parseMC` up to the finished `action` (lines 44-59). -/
def buildAction (item : McItem) (label : Label) : Except Panic Animation :=
  match makeEmpty Frame (label.FrameEnd - label.FrameStart + 1) with
  | .error p => .error p
  | .ok frames0 =>
    let index := label.FrameStart - 1
    match sliceRange item.Frames (label.FrameStart - 1) (label.FrameEnd - 1) with
    | .error p => .error p
    | .ok raw =>
      .ok { Name := label.Name, Frames := (frameLoop raw (frames0, index)).1, Loop := false }

/-- The loop over `item.Labels` in `parseMC` (lines 43-66). -/
def labelLoop (item : McItem) : List Label → MovieClipResource → Except Panic MovieClipResource
  | [], resource => .ok resource
  | label :: rest, resource =>
    match buildAction item label with
    | .error p => .error p
    | .ok action =>
      let resource1 := { resource with Actions := resource.Actions ++ [action] }
      let resource2 :=
        if stringsContains label.Name "idle" then
          { resource1 with DefaultAction := some action }
        else resource1
      labelLoop item rest resource2

/-- The loop over `dataEgret.Mc` in `parseMC` (lines 42-67). -/
def itemLoop : List McItem → MovieClipResource → Except Panic MovieClipResource
  | [], resource => .ok resource
  | item :: rest, resource =>
    match labelLoop item item.Labels resource with
    | .error p => .error p
    | .ok resource1 => itemLoop rest resource1

/-- The clip-building part of `parseMC` (lines 36-69), run on a decoded descriptor. -/
def parseActions (dataEgret : MovieClip) : Except Panic MovieClipResource :=
  itemLoop dataEgret.Mc { Actions := [], DefaultAction := none }

/-- Closed form of what `frameLoop` appends: the raw frames in order, the `k`-th one with
slot index `index + k` and its own offset as bias. -/
def framesFrom (index : Int) : List RawFrame → List Frame
  | [] => []
  | frame :: rest =>
    { Index := index, Bias := { X := frame.X, Y := frame.Y } } :: framesFrom (index + 1) rest

/-- The (group, label) pairs of a descriptor in the order the two nested loops of
`parseMC` visit them. -/
def labelPairs : List McItem → List (McItem × Label)
  | [] => []
  | item :: rest => item.Labels.map (fun label => (item, label)) ++ labelPairs rest

/-- Whether the label of a pair has a name containing `"idle"`. -/
def isIdle (p : McItem × Label) : Bool := stringsContains p.2.Name "idle"

/-- The last visited pair whose label name contains `"idle"`, if any. -/
def lastIdle (pairs : List (McItem × Label)) : Option (McItem × Label) :=
  (pairs.filter isIdle).getLast?

/-- The clip built for a (group, label) pair, when building it does not panic. -/
def clipOf (p : McItem × Label) : Option Animation :=
  match buildAction p.1 p.2 with
  | .ok action => some action
  | .error _ => none

/-- The clip of the last pair with an `"idle"` label, or `dflt` when there is none. -/
def lastIdleOr (dflt : Option Animation) (pairs : List (McItem × Label)) : Option Animation :=
  match lastIdle pairs with
  | some p => clipOf p
  | none => dflt

/-! ## The driver's state machine as the specification words it -/

/-- Specification, state "no active clip, default present": the default clip becomes the
current clip and the cursor is reset to 0. -/
def specSelectDefault {D : Type} (e : animationEntity D) (dflt : Animation) :
    animationEntity D :=
  { e with AnimationComponent :=
      { e.AnimationComponent with CurrentAnimation := some dflt, index := 0 } }

/-- Specification, state "active clip": accumulate the elapsed time by the tick delta; when
the elapsed time has reached the rate, publish the current visual to the render
collaborator, publish the bias at the current position to the spatial collaborator, then
advance the frame. -/
def specActiveTick {D : Type} (dt : ℚ) (e : animationEntity D) :
    Except Panic (animationEntity D) :=
  let elapsed := e.AnimationComponent.change + dt
  let state := { e.AnimationComponent with change := elapsed }
  if elapsed ≥ e.AnimationComponent.Rate then do
    let visual ← Cell state
    let position ← Bias state e.SpaceComponent.Position
    let advanced ← NextFrame state
    pure { AnimationComponent := advanced
           RenderComponent := { Drawable := visual }
           SpaceComponent := { Position := position } }
  else
    pure { e with AnimationComponent := state }

/-! ## Concrete states used as inputs -/

/-- A frame with the given slot index and a zero bias. -/
def exFrame (i : Int) : Frame := { Index := i, Bias := { X := 0, Y := 0 } }

/-- A looping two-frame clip showing slot 1, then slot 0. -/
def exStepClip : Animation :=
  { Name := "step", Frames := [exFrame 1, exFrame 0], Loop := true }

/-- A tracked entity over the drawables `[10, 11]` with the single registered clip
`"step"` selected, no default clip, rate 0, showing slot 0. -/
def exStepEntity : animationEntity Nat :=
  { AnimationComponent :=
      { Drawables := [10, 11]
        Animations := fun k => if k = "step" then some exStepClip else none
        CurrentAnimation := some exStepClip
        Rate := 0
        index := 0
        change := 0
        def_ := none }
    RenderComponent := { Drawable := 10 }
    SpaceComponent := { Position := { X := 5, Y := 5 } } }

/-- The entity `exStepEntity` after one tick: it shows slot 1 and the cursor is at 1. -/
def exPlayedEntity : animationEntity Nat :=
  { AnimationComponent := { exStepEntity.AnimationComponent with index := 1, change := 0 }
    RenderComponent := { Drawable := 11 }
    SpaceComponent := { Position := { X := 0, Y := 0 } } }

/-- The entity `exPlayedEntity` after `SelectAnimationByName "missing"`. -/
def exMissingEntity : animationEntity Nat :=
  { exPlayedEntity with
    AnimationComponent := SelectAnimationByName exPlayedEntity.AnimationComponent "missing" }


/-- A one-frame clip whose frame has slot index 1 and stored bias `(-3, 4)`. -/
def exBiasClip : Animation :=
  { Name := "hit", Frames := [{ Index := 1, Bias := { X := -3, Y := 4 } }], Loop := false }

/-- A component over two drawables whose current clip is `exBiasClip`, cursor 0. -/
def exBiasState : AnimationComponent Nat :=
  SelectAnimationByAction (NewAnimationComponent [10, 11] 0) (some exBiasClip)

/-- A clip without frames. -/
def exEmptyClip : Animation := { Name := "void", Frames := [], Loop := false }

/-- A component over two drawables whose current clip is `exEmptyClip`. -/
def exEmptyState : AnimationComponent Nat :=
  SelectAnimationByAction (NewAnimationComponent [10, 11] 0) (some exEmptyClip)


/-- A raw frame entry named after its position `i`, with offset `(10 * i, -i)`. -/
def exRaw (i : Nat) : RawFrame :=
  { ResourceName := toString i, X := 10 * i, Y := -(i : Int) }

/-- A descriptor with two groups: the first has the labels `"idle"` and `"run"`, the
second the labels `"run_idle"` and `"Idle"`. -/
def exMcIdle : MovieClip :=
  { File := "hero.png"
    Mc := [{ Labels := [{ Name := "idle", FrameStart := 1, FrameEnd := 2 },
                        { Name := "run", FrameStart := 2, FrameEnd := 4 }]
             Frames := (List.range 3).map exRaw },
           { Labels := [{ Name := "run_idle", FrameStart := 1, FrameEnd := 3 },
                        { Name := "Idle", FrameStart := 2, FrameEnd := 3 }]
             Frames := (List.range 2).map exRaw }]
    Regions := fun _ => none }

/-- The clip that `parseMC` builds for the label `"run_idle"` of `exMcIdle`. -/
def exRunIdleClip : Animation :=
  { Name := "run_idle"
    Frames := [{ Index := 0, Bias := { X := 0, Y := 0 } },
               { Index := 1, Bias := { X := 10, Y := -1 } }]
    Loop := false }

/-- The clips and default clip that `parseMC` builds for `exMcIdle`. -/
def exIdleResource : MovieClipResource :=
  { Actions := [{ Name := "idle", Frames := [{ Index := 0, Bias := { X := 0, Y := 0 } }],
                  Loop := false },
                { Name := "run"
                  Frames := [{ Index := 1, Bias := { X := 10, Y := -1 } },
                             { Index := 2, Bias := { X := 20, Y := -2 } }]
                  Loop := false },
                exRunIdleClip,
                { Name := "Idle", Frames := [{ Index := 1, Bias := { X := 10, Y := -1 } }],
                  Loop := false }]
    DefaultAction := some exRunIdleClip }


/-- A group whose flat frame list has ten entries and a single label
`frame_start = 2`, `frame_end = 5`. -/
def exItem10 : McItem :=
  { Labels := [{ Name := "walk", FrameStart := 2, FrameEnd := 5 }]
    Frames := (List.range 10).map exRaw }

/-- The label `frame_start = 2`, `frame_end = 5`. -/
def exLabel25 : Label := { Name := "walk", FrameStart := 2, FrameEnd := 5 }


/-- A looping clip of three frames. -/
def exLoopClip : Animation :=
  { Name := "walk", Frames := [exFrame 0, exFrame 1, exFrame 2], Loop := true }

/-- A one-shot clip of three frames. -/
def exOnceClip : Animation :=
  { Name := "jump", Frames := [exFrame 0, exFrame 1, exFrame 2], Loop := false }

/-- A component over three drawables on which `exLoopClip` has just been selected. -/
def exLoopState : AnimationComponent Nat :=
  SelectAnimationByAction (NewAnimationComponent [10, 11, 12] 0) (some exLoopClip)

/-- A component over three drawables on which `exOnceClip` has just been selected. -/
def exOnceState : AnimationComponent Nat :=
  SelectAnimationByAction (NewAnimationComponent [10, 11, 12] 0) (some exOnceClip)

/-- A tracked entity playing `exOnceClip` with the cursor at the last frame, rate `1/10`,
elapsed time `1/20`, showing slot 1. -/
def exLastFrameEntity : animationEntity Nat :=
  { AnimationComponent :=
      { Drawables := [10, 11, 12]
        Animations := fun k => if k = "jump" then some exOnceClip else none
        CurrentAnimation := some exOnceClip
        Rate := 1 / 10
        index := 2
        change := 1 / 20
        def_ := none }
    RenderComponent := { Drawable := 11 }
    SpaceComponent := { Position := { X := 5, Y := 5 } } }

/-- A tracked entity with no current clip whose default clip `exLoopClip` was registered
by `AddDefaultAnimation`; rate `1/10`. -/
def exDefaultEntity : animationEntity Nat :=
  { AnimationComponent :=
      { Drawables := [10, 11, 12]
        Animations := fun k => if k = "walk" then some exLoopClip else none
        CurrentAnimation := none
        Rate := 1 / 10
        index := 0
        change := 0
        def_ := some exLoopClip }
    RenderComponent := { Drawable := 10 }
    SpaceComponent := { Position := { X := 5, Y := 5 } } }

/-- A tracked entity with neither a current clip nor a default clip, elapsed time `1/20`,
showing slot 1 at position `(5, 5)`. -/
def exIdleEntity : animationEntity Nat :=
  { AnimationComponent :=
      { Drawables := [10, 11, 12]
        Animations := fun k => if k = "jump" then some exOnceClip else none
        CurrentAnimation := none
        Rate := 1 / 10
        index := 0
        change := 1 / 20
        def_ := none }
    RenderComponent := { Drawable := 11 }
    SpaceComponent := { Position := { X := 5, Y := 5 } } }

/-- A tracked entity playing `exBiasClip` (one frame, slot 1, bias `(-3, 4)`) from cursor
0, rate `1/10`, elapsed time `1/20`, showing slot 0 at position `(5, 5)`. -/
def exGateEntity : animationEntity Nat :=
  { AnimationComponent :=
      { Drawables := [10, 11]
        Animations := fun k => if k = "hit" then some exBiasClip else none
        CurrentAnimation := some exBiasClip
        Rate := 1 / 10
        index := 0
        change := 1 / 20
        def_ := none }
    RenderComponent := { Drawable := 10 }
    SpaceComponent := { Position := { X := 5, Y := 5 } } }

/-! ## Spritesheet construction and the whole of `parseMC` -/

/-- Type `common.SpriteRegion`. -/
structure SpriteRegion where
  Position : Point
  Width : Int
  Height : Int
  deriving DecidableEq, Repr

/-- Modelled from the spec: the spritesheet made by `NewAsymmetricSpritesheetFromTexture`
(declared outside `parse.go`), the region table bound to the texture `T`. -/
structure Spritesheet (T : Type) where
  texture : T
  cells : List SpriteRegion

/-- Modelled from the spec: the flat frame entries of the descriptor in order, the frame
lists of the groups one after the other (`MovieClip.AllFrames` is declared outside
`parse.go`). -/
def allFramesOf : List McItem → List RawFrame
  | [] => []
  | item :: rest => item.Frames ++ allFramesOf rest

/-- Modelled from the spec: method `MovieClip.AllFrames`. -/
def MovieClip.AllFrames (mc : MovieClip) : List RawFrame := allFramesOf mc.Mc

/-- The slot that `newSpritesheetFromFile` appends for a region (lines 91-95). -/
def regionSlot (region : Region) : SpriteRegion :=
  { Position := { X := region.X, Y := region.Y }, Width := region.W, Height := region.H }

/-- The loop of `newSpritesheetFromFile` over the frame entries (lines 85-96): an entry
whose region name is missing from the map is skipped by `continue`. -/
def spriteRegionsLoop (regions : String → Option Region) :
    List RawFrame → List SpriteRegion → List SpriteRegion
  | [], spriteRegions => spriteRegions
  | frame :: rest, spriteRegions =>
    match regions frame.ResourceName with
    | none => spriteRegionsLoop regions rest spriteRegions
    | some region => spriteRegionsLoop regions rest (spriteRegions ++ [regionSlot region])

/-- The errors that `parseMC` returns as its second result. -/
inductive ParseError where
  | read (msg : String)
  | decode (msg : String)
  | load (msg : String)
  | resource (textureName msg : String)
  | notTexture (textureName : String)
  deriving DecidableEq, Repr

/-- The collaborators of `parseMC` declared outside `parse.go`, for a texture resource
type `T`: the decoder `Unmarshal`, the path `path.Join(path.Dir(url), file)`, the loader
`engo.Files.Load` (its error, if any) and `engo.Files.Resource` followed by the type
assertion to `TextureResource` (`none` when the resource is of another kind). -/
structure Files (T : Type) where
  Unmarshal : List Nat → Except String MovieClip
  texturePath : String → String → String
  Load : String → Option String
  Resource : String → Except String (Option T)

/-- Function `newSpritesheetFromFile`; the pair is the Go result `(*Spritesheet, error)`. -/
def newSpritesheetFromFile {T : Type} (files : Files T) (textureName : String)
    (mc : MovieClip) : Option (Spritesheet T) × Option ParseError :=
  match files.Resource textureName with
  | .error msg => (none, some (.resource textureName msg))
  | .ok none => (none, some (.notTexture textureName))
  | .ok (some img) =>
    (some { texture := img, cells := spriteRegionsLoop mc.Regions mc.AllFrames [] }, none)

/-- What `parseMC` stores in the `MovieClipResource` it returns: `url`, `SpriteSheet`, and
the fields written by the label loop. -/
structure ParsedMovieClip (T : Type) where
  url : String
  SpriteSheet : Option (Spritesheet T)
  clips : MovieClipResource

/-- Function `parseMC`; `content` is the result of `ioutil.ReadAll(r)`, the pair is the Go
result `(*MovieClipResource, error)` and `Except.error` a run-time panic. -/
def parseMC {T : Type} (files : Files T) (url : String) (content : Except String (List Nat)) :
    Except Panic (Option (ParsedMovieClip T) × Option ParseError) :=
  match content with
  | .error msg => .ok (none, some (.read msg))
  | .ok bytes =>
    match files.Unmarshal bytes with
    | .error msg => .ok (none, some (.decode msg))
    | .ok dataEgret =>
      let textureName := files.texturePath url dataEgret.File
      match files.Load textureName with
      | some msg => .ok (none, some (.load msg))
      | none =>
        match newSpritesheetFromFile files textureName dataEgret with
        | (_, some err) => .ok (none, some err)
        | (spriteSheet, none) =>
          match parseActions dataEgret with
          | .error p => .error p
          | .ok resource =>
            .ok (some { url := url, SpriteSheet := spriteSheet, clips := resource }, none)

/-- The slot built for a frame entry, if its region is present in the map. -/
def slotOf (regions : String → Option Region) (frame : RawFrame) : Option SpriteRegion :=
  (regions frame.ResourceName).map regionSlot

/-- Whether the region named by a frame entry is present in the map. -/
def hasRegion (regions : String → Option Region) (frame : RawFrame) : Bool :=
  (regions frame.ResourceName).isSome

/-- A descriptor with one group of two frame entries `"a"` and `"b"`, one label over both,
and a region map that only knows `"b"`. -/
def exSkipMc : MovieClip :=
  { File := "hero.png"
    Mc := [{ Labels := [{ Name := "walk", FrameStart := 1, FrameEnd := 3 }]
             Frames := [{ ResourceName := "a", X := 1, Y := 2 },
                        { ResourceName := "b", X := 3, Y := 4 }] }]
    Regions := fun k => if k = "b" then some { X := 16, Y := 0, W := 16, H := 32 } else none }

/-- Collaborators that decode every payload to the given descriptor and resolve every
texture path to the texture `7`. -/
def exFiles (mc : MovieClip) : Files Nat :=
  { Unmarshal := fun _ => .ok mc
    texturePath := fun _ file => file
    Load := fun _ => none
    Resource := fun _ => .ok (some 7) }

/-- The clip that `parseMC` builds for the label `"walk"` of `exSkipMc`. -/
def exSkipClip : Animation :=
  { Name := "walk"
    Frames := [{ Index := 0, Bias := { X := 1, Y := 2 } },
               { Index := 1, Bias := { X := 3, Y := 4 } }]
    Loop := false }

/-- The input format constraints on a label, `frame_start ≥ 1` and
`frame_end ≥ frame_start`, as the specification states them. -/
def labelWellFormed (label : Label) : Prop :=
  1 ≤ label.FrameStart ∧ label.FrameStart ≤ label.FrameEnd

/-- A well-formed label whose range also ends within its group's frame list:
`frame_end ≤ L + 1` for a group of `L` frame entries. -/
def labelInRange (p : McItem × Label) : Prop :=
  labelWellFormed p.2 ∧ p.2.FrameEnd ≤ (p.1.Frames.length : Int) + 1

instance (label : Label) : Decidable (labelWellFormed label) := by
  unfold labelWellFormed
  infer_instance

instance (p : McItem × Label) : Decidable (labelInRange p) := by
  unfold labelInRange
  infer_instance

/-- A descriptor with one group of two frame entries and a well-formed label
`frame_start = 1`, `frame_end = 1000` that reaches past the frame list. -/
def exShortMc : MovieClip :=
  { File := "hero.png"
    Mc := [{ Labels := [{ Name := "walk", FrameStart := 1, FrameEnd := 1000 }]
             Frames := (List.range 2).map exRaw }]
    Regions := fun _ => some { X := 0, Y := 0, W := 16, H := 32 } }

/-- Collaborators that decode every payload to the given descriptor and load a resource
that is not a texture. -/
def exFilesNoTexture (mc : MovieClip) : Files Nat :=
  { Unmarshal := fun _ => .ok mc
    texturePath := fun _ file => file
    Load := fun _ => none
    Resource := fun _ => .ok none }

/-! ## The registry of the driver -/

/-- The entries of the map `entities`; the nil map has none. -/
def AnimationSystem.entries {D : Type} (a : AnimationSystem D) :
    List (Nat × animationEntity D) :=
  match a.entities with
  | none => []
  | some es => es

/-- The map read `a.entities[id]`, `none` when the id is not tracked. -/
def AnimationSystem.lookup {D : Type} (a : AnimationSystem D) (id : Nat) :
    Option (animationEntity D) :=
  (a.entries.find? (fun p => p.1 == id)).map (fun p => p.2)

/-- Method `AnimationSystem.Add`, `id` being `basic.ID()`: the map is made if it is nil,
then `entities[id]` is set to the triple. -/
def Add {D : Type} (a : AnimationSystem D) (id : Nat) (anim : AnimationComponent D)
    (render : RenderComponent D) (space : SpaceComponent) : AnimationSystem D :=
  { entities := some ((id, { AnimationComponent := anim
                             RenderComponent := render
                             SpaceComponent := space }) ::
      a.entries.filter (fun p => p.1 != id)) }

/-- Method `AnimationSystem.Remove`, `id` being `basic.ID()`: `delete(entities, id)` unless
the map is nil. -/
def Remove {D : Type} (a : AnimationSystem D) (id : Nat) : AnimationSystem D :=
  match a.entities with
  | none => a
  | some es => { entities := some (es.filter (fun p => p.1 != id)) }

/-- A registry tracking `exStepEntity` under id 1 and `exIdleEntity` under id 2. -/
def exSystem : AnimationSystem Nat :=
  { entities := some [(1, exStepEntity), (2, exIdleEntity)] }

/-! ## Runs of operations on a tracked entity -/

/-- The operations on the animation state of a tracked entity: the methods of
`AnimationComponent` that change it and one tick of `AnimationSystem.Update`. -/
inductive Op where
  | addAnimation (action : Option Animation)
  | addDefaultAnimation (action : Option Animation)
  | addAnimations (actions : List (Option Animation))
  | selectAnimationByName (name : String)
  | selectAnimationByAction (action : Option Animation)
  | nextFrame
  | update (dt : ℚ)

/-- The entity with its animation component replaced by the result of a method call. -/
def withComponent {D : Type} (e : animationEntity D)
    (r : Except Panic (AnimationComponent D)) : Except Panic (animationEntity D) :=
  match r with
  | .error p => .error p
  | .ok ac => .ok { e with AnimationComponent := ac }

/-- One operation applied to a tracked entity. -/
def applyOp {D : Type} (op : Op) (e : animationEntity D) : Except Panic (animationEntity D) :=
  match op with
  | .addAnimation action => withComponent e (AddAnimation e.AnimationComponent action)
  | .addDefaultAnimation action =>
    withComponent e (AddDefaultAnimation e.AnimationComponent action)
  | .addAnimations actions => withComponent e (AddAnimations e.AnimationComponent actions)
  | .selectAnimationByName name =>
    .ok { e with AnimationComponent := SelectAnimationByName e.AnimationComponent name }
  | .selectAnimationByAction action =>
    .ok { e with AnimationComponent := SelectAnimationByAction e.AnimationComponent action }
  | .nextFrame => withComponent e (NextFrame e.AnimationComponent)
  | .update dt => updateEntity dt e

/-- A sequence of operations applied in order, stopping at a panic. -/
def runOps {D : Type} : List Op → animationEntity D → Except Panic (animationEntity D)
  | [], e => .ok e
  | op :: rest, e =>
    match applyOp op e with
    | .error p => .error p
    | .ok e1 => runOps rest e1

/-- The cursor invariant: when the current clip is set and has a frame, the cursor is a
valid position in its frame list. -/
def cursorInRange {D : Type} (ac : AnimationComponent D) : Prop :=
  ∀ cur, ac.CurrentAnimation = some cur → cur.Frames ≠ [] →
    0 ≤ ac.index ∧ ac.index < (cur.Frames.length : Int)

/-- A sequence of ticks of `Update` on one tracked entity, with the given deltas. -/
def updateTicks {D : Type} : List ℚ → animationEntity D → Except Panic (animationEntity D)
  | [], e => .ok e
  | dt :: rest, e =>
    match updateEntity dt e with
    | .error p => .error p
    | .ok e1 => updateTicks rest e1

/-- A tracked entity whose current clip `exEmptyClip` has no frames, with the default clip
`exLoopClip` registered, rate `1/10`, elapsed time `1/5`, showing slot 1. -/
def exEmptyEntity : animationEntity Nat :=
  { AnimationComponent :=
      { Drawables := [10, 11]
        Animations := fun k => if k = "walk" then some exLoopClip else none
        CurrentAnimation := some exEmptyClip
        Rate := 1 / 10
        index := 0
        change := 1 / 5
        def_ := some exLoopClip }
    RenderComponent := { Drawable := 11 }
    SpaceComponent := { Position := { X := 5, Y := 5 } } }

/-- A run that registers clips, plays the one-shot clip to its end and lets the default
take over. -/
def exOps : List Op :=
  [.addAnimation (some exOnceClip), .addDefaultAnimation (some exLoopClip),
   .selectAnimationByName "jump", .nextFrame, .update 1, .update 1, .update 1,
   .selectAnimationByName "missing", .update 1, .nextFrame]


/-- The entity that the run `exOps` reaches from a freshly assembled entity over three
drawables with rate 0, showing slot 10 at position `(5, 5)`: the default clip
`exLoopClip` is playing, cursor 2. -/
def exOpsResult : animationEntity Nat :=
  { AnimationComponent :=
      { Drawables := [10, 11, 12]
        Animations := fun k =>
          if k = "walk" then some exLoopClip else if k = "jump" then some exOnceClip else none
        CurrentAnimation := some exLoopClip
        Rate := 0
        index := 2
        change := 0
        def_ := some exLoopClip }
    RenderComponent := { Drawable := 10 }
    SpaceComponent := { Position := { X := 0, Y := 0 } } }

/-! ## Runs that visit the groups in different orders -/

/-- The collaborators of a run whose `range` loops visit the decoded groups in the order
`visit`; everything else of the decoded descriptor is as `files.Unmarshal` gives it. -/
def visiting {T : Type} (files : Files T) (visit : List McItem) : Files T :=
  { files with
    Unmarshal := fun bytes =>
      match files.Unmarshal bytes with
      | .error msg => .error msg
      | .ok mc => .ok { mc with Mc := visit } }

/-- All labels whose name contains `"idle"` belong to one group. -/
def oneIdleGroup (items : List McItem) : Prop :=
  ∀ p ∈ labelPairs items, ∀ q ∈ labelPairs items,
    isIdle p = true → isIdle q = true → p.1 = q.1

/-- The (group, label) pairs of one group. -/
def pairsOf (item : McItem) : List (McItem × Label) :=
  item.Labels.map (fun label => (item, label))

/-- The groups of `exMcIdle` in the other order. -/
def exMcIdleSwapped : List McItem :=
  [{ Labels := [{ Name := "run_idle", FrameStart := 1, FrameEnd := 3 },
                { Name := "Idle", FrameStart := 2, FrameEnd := 3 }]
     Frames := (List.range 2).map exRaw },
   { Labels := [{ Name := "idle", FrameStart := 1, FrameEnd := 2 },
                { Name := "run", FrameStart := 2, FrameEnd := 4 }]
     Frames := (List.range 3).map exRaw }]

/-- The clip that `parseMC` builds for the label `"idle"` of `exMcIdle`. -/
def exIdleClip : Animation :=
  { Name := "idle", Frames := [{ Index := 0, Bias := { X := 0, Y := 0 } }], Loop := false }

instance (items : List McItem) : Decidable (oneIdleGroup items) := by
  unfold oneIdleGroup
  infer_instance

/-- The clips and default clip that `parseMC` builds for `exMcIdle` when its two groups are
visited in the other order. -/
def exIdleResourceSwapped : MovieClipResource :=
  { Actions := [exRunIdleClip,
                { Name := "Idle", Frames := [{ Index := 1, Bias := { X := 10, Y := -1 } }],
                  Loop := false },
                exIdleClip,
                { Name := "run"
                  Frames := [{ Index := 1, Bias := { X := 10, Y := -1 } },
                             { Index := 2, Bias := { X := 20, Y := -2 } }]
                  Loop := false }]
    DefaultAction := some exIdleClip }

/-- A descriptor with two groups of which only the first has a label containing `"idle"`. -/
def exMcOneIdle : MovieClip :=
  { File := "hero.png"
    Mc := [{ Labels := [{ Name := "idle", FrameStart := 1, FrameEnd := 2 }]
             Frames := (List.range 3).map exRaw },
           { Labels := [{ Name := "run", FrameStart := 1, FrameEnd := 3 }]
             Frames := (List.range 2).map exRaw }]
    Regions := fun _ => some { X := 0, Y := 0, W := 16, H := 32 } }

/-- The groups of `exMcOneIdle` in the other order. -/
def exMcOneIdleSwapped : List McItem :=
  [{ Labels := [{ Name := "run", FrameStart := 1, FrameEnd := 3 }]
     Frames := (List.range 2).map exRaw },
   { Labels := [{ Name := "idle", FrameStart := 1, FrameEnd := 2 }]
     Frames := (List.range 3).map exRaw }]

/-! ## Shared lemmas -/

theorem indexSlice_natCast {α : Type} (xs : List α) (i : Nat) (x : α) (h : xs[i]? = some x) :
    indexSlice xs (i : Int) = .ok x := by
  unfold indexSlice
  have h0 : ¬ ((i : Int) < 0) := by omega
  simp [h0, h]

theorem NextFrame_inner {D : Type} (ac : AnimationComponent D) (cur : Animation) (i : Nat)
    (hcur : ac.CurrentAnimation = some cur) (hidx : ac.index = (i : Int))
    (hlt : i + 1 < cur.Frames.length) :
    NextFrame ac = .ok { ac with index := ((i + 1 : Nat) : Int), change := 0 } := by
  unfold NextFrame
  have hne : cur.Frames.length ≠ 0 := by omega
  have hge : ¬ ((i : Int) + 1 ≥ (cur.Frames.length : Int)) := by omega
  simp [hcur, hidx, hne, hge]

theorem NextFrame_last {D : Type} (ac : AnimationComponent D) (cur : Animation) (i : Nat)
    (hcur : ac.CurrentAnimation = some cur) (hidx : ac.index = (i : Int))
    (hlast : i + 1 = cur.Frames.length) :
    NextFrame ac = .ok { ac with index := 0, change := 0,
                                 CurrentAnimation := if cur.Loop then some cur else none } := by
  unfold NextFrame
  have hne : cur.Frames.length ≠ 0 := by omega
  have hge : (i : Int) + 1 ≥ (cur.Frames.length : Int) := by omega
  cases hl : cur.Loop <;> simp [hcur, hidx, hne, hge, hl]

/-- A successful `Update` runs the loop body `updateEntity` on every tracked entity and
keeps the ids. -/
theorem updateAll_entity {D : Type} (dt : ℚ) :
    ∀ (es es1 : List (Nat × animationEntity D)), updateAll dt es = .ok es1 →
      es1.map Prod.fst = es.map Prod.fst ∧
      ∀ id e, (id, e) ∈ es → ∃ e1, updateEntity dt e = .ok e1 ∧ (id, e1) ∈ es1 := by
  intro es
  induction es with
  | nil =>
    intro es1 h
    simp only [updateAll, Except.ok.injEq] at h
    subst h
    simp
  | cons entry rest ih =>
    intro es1 h
    obtain ⟨id0, e0⟩ := entry
    rw [updateAll] at h
    cases h0 : updateEntity dt e0 with
    | error p => simp [h0] at h
    | ok e1 =>
      cases hr : updateAll dt rest with
      | error p => simp [h0, hr] at h
      | ok rest1 =>
        simp only [h0, hr, Except.ok.injEq] at h
        subst h
        obtain ⟨hids, hall⟩ := ih rest1 hr
        refine ⟨by simp [hids], ?_⟩
        intro id e hmem
        rcases List.mem_cons.mp hmem with heq | hmem
        · cases heq
          exact ⟨e1, h0, List.mem_cons_self _ _⟩
        · obtain ⟨e2, h2, hm2⟩ := hall id e hmem
          exact ⟨e2, h2, List.mem_cons_of_mem _ hm2⟩

theorem NextFrame_loop_step {D : Type} (ac : AnimationComponent D) (cur : Animation) (i : Nat)
    (hcur : ac.CurrentAnimation = some cur) (hidx : ac.index = (i : Int))
    (hloop : cur.Loop = true) (hlt : i < cur.Frames.length) :
    NextFrame ac =
      .ok { ac with index := (((i + 1) % cur.Frames.length : Nat) : Int), change := 0 } := by
  rcases Nat.lt_or_ge (i + 1) cur.Frames.length with h | h
  · rw [NextFrame_inner ac cur i hcur hidx h, Nat.mod_eq_of_lt h]
  · have hlast : i + 1 = cur.Frames.length := by omega
    rw [NextFrame_last ac cur i hcur hidx hlast, ← hlast, Nat.mod_self]
    simp [hloop, hcur]

theorem nextFrames_loop_from {D : Type} (cur : Animation) (hloop : cur.Loop = true) :
    ∀ (k : Nat) (ac : AnimationComponent D) (i : Nat),
      ac.CurrentAnimation = some cur → ac.index = (i : Int) → i < cur.Frames.length →
      nextFrames k ac =
        .ok { ac with index := (((i + k) % cur.Frames.length : Nat) : Int),
                      change := if k = 0 then ac.change else 0 } := by
  intro k
  induction k with
  | zero =>
    intro ac i _ hidx hlt
    simp [nextFrames, Nat.mod_eq_of_lt hlt, ← hidx]
  | succ k ih =>
    intro ac i hcur hidx hlt
    have hpos : 0 < cur.Frames.length := by omega
    have hstep := NextFrame_loop_step ac cur i hcur hidx hloop hlt
    have hnext := ih { ac with index := (((i + 1) % cur.Frames.length : Nat) : Int), change := 0 }
      ((i + 1) % cur.Frames.length) hcur rfl (Nat.mod_lt _ hpos)
    simp only [nextFrames, hstep, hnext]
    have hmod : ((i + 1) % cur.Frames.length + k) % cur.Frames.length
        = (i + (k + 1)) % cur.Frames.length := by
      rw [Nat.mod_add_mod]; congr 1; omega
    simp [hmod]

/-- C1: for a looping clip with `N ≥ 1` frames that has just been selected (cursor 0),
`k` calls of `NextFrame` succeed and leave the clip current with the cursor at `k mod N`;
in particular `N` calls bring the cursor back to 0 with the clip still current. -/
theorem NextFrame_looping_cursor {D : Type} (ac : AnimationComponent D) (clip : Animation)
    (k : Nat) (hcur : ac.CurrentAnimation = some clip) (hidx : ac.index = 0)
    (hloop : clip.Loop = true) (hN : 1 ≤ clip.Frames.length) :
    (∃ ac1, nextFrames k ac = .ok ac1 ∧ ac1.CurrentAnimation = some clip ∧
        ac1.index = ((k % clip.Frames.length : Nat) : Int)) ∧
    (∃ acN, nextFrames clip.Frames.length ac = .ok acN ∧ acN.CurrentAnimation = some clip ∧
        acN.index = 0) := by
  have h := nextFrames_loop_from (D := D) clip hloop
  constructor
  · refine ⟨_, h k ac 0 hcur (by simpa using hidx) (by omega), hcur, ?_⟩
    simp
  · refine ⟨_, h clip.Frames.length ac 0 hcur (by simpa using hidx) (by omega), hcur, ?_⟩
    simp

theorem NextFrame_looping_cursor_witness :
    exLoopState.CurrentAnimation = some exLoopClip ∧ exLoopState.index = 0 ∧
    exLoopClip.Loop = true ∧ 1 ≤ exLoopClip.Frames.length ∧
    ((∃ ac1, nextFrames 7 exLoopState = .ok ac1 ∧ ac1.CurrentAnimation = some exLoopClip ∧
        ac1.index = ((7 % exLoopClip.Frames.length : Nat) : Int)) ∧
     (∃ acN, nextFrames exLoopClip.Frames.length exLoopState = .ok acN ∧
        acN.CurrentAnimation = some exLoopClip ∧ acN.index = 0)) :=
  ⟨rfl, rfl, rfl, by decide,
    NextFrame_looping_cursor exLoopState exLoopClip 7 rfl rfl rfl (by decide)⟩

theorem nextFrames_once_before {D : Type} (cur : Animation) :
    ∀ (k : Nat) (ac : AnimationComponent D) (i : Nat),
      ac.CurrentAnimation = some cur → ac.index = (i : Int) → i + k < cur.Frames.length →
      nextFrames k ac =
        .ok { ac with index := ((i + k : Nat) : Int),
                      change := if k = 0 then ac.change else 0 } := by
  intro k
  induction k with
  | zero =>
    intro ac i _ hidx _
    simp [nextFrames, ← hidx]
  | succ k ih =>
    intro ac i hcur hidx hlt
    have hstep := NextFrame_inner ac cur i hcur hidx (by omega)
    have hnext := ih { ac with index := ((i + 1 : Nat) : Int), change := 0 } (i + 1) hcur rfl
      (by omega)
    simp only [nextFrames, hstep, hnext]
    have hsum : i + 1 + k = i + (k + 1) := by omega
    simp [hsum]

theorem nextFrames_once_end {D : Type} (cur : Animation) (hloop : cur.Loop = false) :
    ∀ (k : Nat) (ac : AnimationComponent D) (i : Nat),
      ac.CurrentAnimation = some cur → ac.index = (i : Int) → i + (k + 1) = cur.Frames.length →
      nextFrames (k + 1) ac =
        .ok { ac with index := 0, change := 0, CurrentAnimation := none } := by
  intro k
  induction k with
  | zero =>
    intro ac i hcur hidx hlast
    have hstep := NextFrame_last ac cur i hcur hidx (by omega)
    simp [nextFrames, hstep, hloop]
  | succ k ih =>
    intro ac i hcur hidx hlast
    have hstep := NextFrame_inner ac cur i hcur hidx (by omega)
    have hnext := ih { ac with index := ((i + 1 : Nat) : Int), change := 0 } (i + 1) hcur rfl
      (by omega)
    rw [nextFrames, hstep]
    simp only [hnext]

/-- C2: for a non-looping clip with `N ≥ 1` frames that has just been selected (cursor 0),
after `k < N` calls of `NextFrame` the clip is still current and the cursor is `k` (each of
the first `N-1` calls moves the cursor by one and never clears the clip), and the `N`-th
call clears the current clip and leaves the cursor at 0. -/
theorem NextFrame_oneshot_clears_on_last {D : Type} (ac : AnimationComponent D)
    (clip : Animation) (hcur : ac.CurrentAnimation = some clip) (hidx : ac.index = 0)
    (hloop : clip.Loop = false) (hN : 1 ≤ clip.Frames.length) :
    (∀ k, k < clip.Frames.length →
      ∃ ack, nextFrames k ac = .ok ack ∧ ack.CurrentAnimation = some clip ∧
        ack.index = (k : Int)) ∧
    (∃ acN, nextFrames clip.Frames.length ac = .ok acN ∧ acN.CurrentAnimation = none ∧
        acN.index = 0) := by
  have hidx0 : ac.index = ((0 : Nat) : Int) := by simpa using hidx
  constructor
  · intro k hk
    refine ⟨_, nextFrames_once_before clip k ac 0 hcur hidx0 (by omega), hcur, ?_⟩
    simp
  · obtain ⟨n, hn⟩ : ∃ n, clip.Frames.length = n + 1 := ⟨clip.Frames.length - 1, by omega⟩
    rw [hn]
    exact ⟨_, nextFrames_once_end clip hloop n ac 0 hcur hidx0 (by omega), rfl, rfl⟩

theorem NextFrame_oneshot_clears_on_last_witness :
    exOnceState.CurrentAnimation = some exOnceClip ∧ exOnceState.index = 0 ∧
    exOnceClip.Loop = false ∧ 1 ≤ exOnceClip.Frames.length ∧
    ((∀ k, k < exOnceClip.Frames.length →
      ∃ ack, nextFrames k exOnceState = .ok ack ∧ ack.CurrentAnimation = some exOnceClip ∧
        ack.index = (k : Int)) ∧
     (∃ acN, nextFrames exOnceClip.Frames.length exOnceState = .ok acN ∧
        acN.CurrentAnimation = none ∧ acN.index = 0)) :=
  ⟨rfl, rfl, rfl, by decide,
    NextFrame_oneshot_clears_on_last exOnceState exOnceClip rfl rfl rfl (by decide)⟩

theorem frameLoop_eq (raw : List RawFrame) :
    ∀ (frames : List Frame) (index : Int),
      frameLoop raw (frames, index) = (frames ++ framesFrom index raw, index + raw.length) := by
  induction raw with
  | nil => intro frames index; simp [frameLoop, framesFrom]
  | cons frame rest ih =>
    intro frames index
    rw [frameLoop, ih]
    simp [framesFrom]
    omega

theorem framesFrom_length (raw : List RawFrame) :
    ∀ index : Int, (framesFrom index raw).length = raw.length := by
  induction raw with
  | nil => intro index; rfl
  | cons frame rest ih => intro index; simp [framesFrom, ih]

theorem framesFrom_getElem? (raw : List RawFrame) :
    ∀ (index : Int) (k : Nat) (r : RawFrame), raw[k]? = some r →
      (framesFrom index raw)[k]? =
        some { Index := index + k, Bias := { X := r.X, Y := r.Y } } := by
  induction raw with
  | nil => intro index k r h; simp at h
  | cons frame rest ih =>
    intro index k r h
    cases k with
    | zero =>
      simp at h
      simp [framesFrom, h]
    | succ k =>
      simp at h
      have := ih (index + 1) k r h
      simp only [framesFrom, List.getElem?_cons_succ, this]
      congr 2
      push_cast
      omega

theorem buildAction_ok (item : McItem) (label : Label)
    (h1 : 1 ≤ label.FrameStart) (h2 : label.FrameStart ≤ label.FrameEnd)
    (h3 : label.FrameEnd ≤ (item.Frames.length : Int) + 1) :
    buildAction item label =
      .ok { Name := label.Name
            Frames := framesFrom (label.FrameStart - 1)
              ((item.Frames.drop (label.FrameStart - 1).toNat).take
                ((label.FrameEnd - 1).toNat - (label.FrameStart - 1).toNat))
            Loop := false } := by
  unfold buildAction makeEmpty sliceRange
  have hcap : ¬ (label.FrameEnd - label.FrameStart + 1 < 0) := by omega
  have hrange : ¬ (label.FrameStart - 1 < 0 ∨ label.FrameEnd - 1 < label.FrameStart - 1 ∨
      (item.Frames.length : Int) < label.FrameEnd - 1) := by omega
  simp only [hcap, hrange, if_false, frameLoop_eq, List.nil_append]

/-- C4: for a label with `1 ≤ frame_start ≤ frame_end ≤ L + 1` over a group with `L` raw
frames, the clip is built, is named after the label, has `frame_end - frame_start` frames,
and its `k`-th frame is built from the raw frame at array position `frame_start - 1 + k`:
it has that position as `Index` and that raw frame's offset as `Bias`. -/
theorem buildAction_label_range (item : McItem) (label : Label)
    (h1 : 1 ≤ label.FrameStart) (h2 : label.FrameStart ≤ label.FrameEnd)
    (h3 : label.FrameEnd ≤ (item.Frames.length : Int) + 1) :
    ∃ action, buildAction item label = .ok action ∧ action.Name = label.Name ∧
      (action.Frames.length : Int) = label.FrameEnd - label.FrameStart ∧
      ∀ k : Nat, (k : Int) < label.FrameEnd - label.FrameStart →
        ∃ raw, item.Frames[(label.FrameStart - 1).toNat + k]? = some raw ∧
          action.Frames[k]? =
            some { Index := label.FrameStart - 1 + k, Bias := { X := raw.X, Y := raw.Y } } := by
  refine ⟨_, buildAction_ok item label h1 h2 h3, rfl, ?_, ?_⟩
  · simp only [framesFrom_length, List.length_take, List.length_drop]
    omega
  · intro k hk
    have hpos : (label.FrameStart - 1).toNat + k < item.Frames.length := by omega
    refine ⟨item.Frames[(label.FrameStart - 1).toNat + k], List.getElem?_eq_getElem hpos, ?_⟩
    apply framesFrom_getElem?
    have hk2 : k < (label.FrameEnd - 1).toNat - (label.FrameStart - 1).toNat := by omega
    rw [List.getElem?_take_of_lt hk2, List.getElem?_drop, List.getElem?_eq_getElem hpos]

theorem buildAction_label_range_witness :
    (1 : Int) ≤ exLabel25.FrameStart ∧ exLabel25.FrameStart ≤ exLabel25.FrameEnd ∧
    exLabel25.FrameEnd ≤ (exItem10.Frames.length : Int) + 1 ∧
    ∃ action, buildAction exItem10 exLabel25 = .ok action ∧ action.Name = exLabel25.Name ∧
      (action.Frames.length : Int) = exLabel25.FrameEnd - exLabel25.FrameStart ∧
      ∀ k : Nat, (k : Int) < exLabel25.FrameEnd - exLabel25.FrameStart →
        ∃ raw, exItem10.Frames[(exLabel25.FrameStart - 1).toNat + k]? = some raw ∧
          action.Frames[k]? =
            some { Index := exLabel25.FrameStart - 1 + k,
                   Bias := { X := raw.X, Y := raw.Y } } :=
  ⟨by decide, by decide, by decide,
    buildAction_label_range exItem10 exLabel25 (by decide) (by decide) (by decide)⟩

/-- C3 as stated fails: over the ten-entry group `exItem10`, the label `frame_start = 2`,
`frame_end = 5` does not yield a clip of exactly two frames. -/
theorem buildAction_2_5_not_two_frames :
    ¬ ∃ action, buildAction exItem10 exLabel25 = .ok action ∧ action.Frames.length = 2 := by
  rintro ⟨action, hbuild, hlen⟩
  rw [buildAction_ok exItem10 exLabel25 (by decide) (by decide) (by decide)] at hbuild
  cases hbuild
  rw [framesFrom_length] at hlen
  revert hlen
  decide

/-- C3 (amended): over any group whose flat frame list has ten entries, the label
`frame_start = 2`, `frame_end = 5` yields a clip of exactly three frames, built in order
from the raw frames at array positions 1, 2 and 3, with those positions as `Index`. -/
theorem buildAction_2_5_three_frames (item : McItem) (label : Label)
    (hL : item.Frames.length = 10) (hs : label.FrameStart = 2) (he : label.FrameEnd = 5) :
    ∃ r1 r2 r3, item.Frames[1]? = some r1 ∧ item.Frames[2]? = some r2 ∧
      item.Frames[3]? = some r3 ∧
      buildAction item label =
        .ok { Name := label.Name
              Frames := [{ Index := 1, Bias := { X := r1.X, Y := r1.Y } },
                         { Index := 2, Bias := { X := r2.X, Y := r2.Y } },
                         { Index := 3, Bias := { X := r3.X, Y := r3.Y } }]
              Loop := false } := by
  rw [buildAction_ok item label (by omega) (by omega) (by omega), hs, he]
  obtain ⟨labels, frames⟩ := item
  simp only at hL ⊢
  rcases frames with _ | ⟨r0, _ | ⟨r1, _ | ⟨r2, _ | ⟨r3, rest⟩⟩⟩⟩ <;> simp at hL
  exact ⟨r1, r2, r3, by simp, by simp, by simp, by simp [framesFrom]⟩

theorem buildAction_2_5_three_frames_witness :
    exItem10.Frames.length = 10 ∧ exLabel25.FrameStart = 2 ∧ exLabel25.FrameEnd = 5 ∧
    ∃ r1 r2 r3, exItem10.Frames[1]? = some r1 ∧ exItem10.Frames[2]? = some r2 ∧
      exItem10.Frames[3]? = some r3 ∧
      buildAction exItem10 exLabel25 =
        .ok { Name := exLabel25.Name
              Frames := [{ Index := 1, Bias := { X := r1.X, Y := r1.Y } },
                         { Index := 2, Bias := { X := r2.X, Y := r2.Y } },
                         { Index := 3, Bias := { X := r3.X, Y := r3.Y } }]
              Loop := false } :=
  ⟨by decide, rfl, rfl, buildAction_2_5_three_frames exItem10 exLabel25 (by decide) rfl rfl⟩

theorem hasPrefixChars_iff (s sub : List Char) : hasPrefixChars s sub = true ↔ sub <+: s := by
  induction s generalizing sub with
  | nil => cases sub <;> simp [hasPrefixChars]
  | cons c cs ih =>
    cases sub with
    | nil => simp [hasPrefixChars]
    | cons d ds =>
      simp only [hasPrefixChars, Bool.and_eq_true, beq_iff_eq, ih, List.cons_prefix_cons]
      constructor
      · rintro ⟨h, hp⟩; exact ⟨h.symm, hp⟩
      · rintro ⟨h, hp⟩; exact ⟨h.symm, hp⟩

/-- The model of `strings.Contains` decides contiguous occurrence. -/
theorem stringsContains_iff (s sub : String) :
    stringsContains s sub = true ↔ sub.data <:+: s.data := by
  unfold stringsContains
  generalize s.data = cs
  generalize sub.data = ds
  induction cs with
  | nil => cases ds <;> simp [containsChars]
  | cons c cs ih =>
    simp only [containsChars, Bool.or_eq_true, hasPrefixChars_iff, ih, List.infix_cons_iff]

theorem lastIdleOr_append (dflt : Option Animation) (xs ys : List (McItem × Label)) :
    lastIdleOr dflt (xs ++ ys) = lastIdleOr (lastIdleOr dflt xs) ys := by
  unfold lastIdleOr lastIdle
  rw [List.filter_append, List.getLast?_append]
  cases List.getLast? (List.filter isIdle ys) <;> simp

theorem lastIdleOr_cons (dflt : Option Animation) (p : McItem × Label)
    (ps : List (McItem × Label)) :
    lastIdleOr dflt (p :: ps) = lastIdleOr (if isIdle p then clipOf p else dflt) ps := by
  have h := lastIdleOr_append dflt [p] ps
  simp only [List.singleton_append] at h
  rw [h]
  congr 1
  unfold lastIdleOr lastIdle
  cases hp : isIdle p <;> simp [List.filter, hp]

theorem labelLoop_default (item : McItem) :
    ∀ (labels : List Label) (resource r : MovieClipResource),
      labelLoop item labels resource = .ok r →
      (∀ label ∈ labels, ∃ action, buildAction item label = .ok action) ∧
      r.DefaultAction =
        lastIdleOr resource.DefaultAction (labels.map (fun label => (item, label))) := by
  intro labels
  induction labels with
  | nil =>
    intro resource r h
    simp only [labelLoop, Except.ok.injEq] at h
    subst h
    simp [lastIdleOr, lastIdle]
  | cons label rest ih =>
    intro resource r h
    rw [labelLoop] at h
    cases hb : buildAction item label with
    | error p => simp [hb] at h
    | ok action =>
      simp only [hb] at h
      obtain ⟨hall, hdef⟩ := ih _ r h
      refine ⟨?_, ?_⟩
      · intro l hl
        rcases List.mem_cons.mp hl with rfl | hl
        · exact ⟨action, hb⟩
        · exact hall l hl
      · rw [hdef, List.map_cons, lastIdleOr_cons]
        congr 1
        simp only [isIdle, clipOf, hb]
        cases stringsContains label.Name "idle" <;> simp

theorem itemLoop_default :
    ∀ (items : List McItem) (resource r : MovieClipResource),
      itemLoop items resource = .ok r →
      (∀ p ∈ labelPairs items, ∃ action, buildAction p.1 p.2 = .ok action) ∧
      r.DefaultAction = lastIdleOr resource.DefaultAction (labelPairs items) := by
  intro items
  induction items with
  | nil =>
    intro resource r h
    simp only [itemLoop, Except.ok.injEq] at h
    subst h
    simp [labelPairs, lastIdleOr, lastIdle]
  | cons item rest ih =>
    intro resource r h
    rw [itemLoop] at h
    cases hl : labelLoop item item.Labels resource with
    | error p => simp [hl] at h
    | ok resource1 =>
      simp only [hl] at h
      obtain ⟨hall1, hdef1⟩ := labelLoop_default item item.Labels resource resource1 hl
      obtain ⟨hall, hdef⟩ := ih resource1 r h
      refine ⟨?_, ?_⟩
      · intro p hp
        simp only [labelPairs, List.mem_append, List.mem_map] at hp
        rcases hp with ⟨label, hmem, rfl⟩ | hp
        · exact hall1 label hmem
        · exact hall p hp
      · rw [hdef, hdef1, labelPairs, lastIdleOr_append]

/-- C5: when the clips of a descriptor are built, the resource's default clip is the clip
of the last label, in the order the groups and their labels are visited, whose name
contains `"idle"`; it is unset exactly when no label name contains `"idle"`. -/
theorem parseActions_default_last_idle (dataEgret : MovieClip) (resource : MovieClipResource)
    (h : parseActions dataEgret = .ok resource) :
    resource.DefaultAction = (lastIdle (labelPairs dataEgret.Mc)).bind clipOf ∧
    (∀ p, lastIdle (labelPairs dataEgret.Mc) = some p →
      ∃ action, buildAction p.1 p.2 = .ok action ∧ resource.DefaultAction = some action) ∧
    (resource.DefaultAction = none ↔
      ∀ p ∈ labelPairs dataEgret.Mc, stringsContains p.2.Name "idle" = false) := by
  obtain ⟨hall, hdef⟩ := itemLoop_default dataEgret.Mc _ resource h
  simp only [lastIdleOr] at hdef
  have hsome : ∀ p, lastIdle (labelPairs dataEgret.Mc) = some p →
      ∃ action, buildAction p.1 p.2 = .ok action ∧ resource.DefaultAction = some action := by
    intro p hp
    have hmem : p ∈ labelPairs dataEgret.Mc :=
      (List.mem_filter.mp (List.mem_of_getLast?_eq_some hp)).1
    obtain ⟨action, hb⟩ := hall p hmem
    refine ⟨action, hb, ?_⟩
    rw [hdef, hp]
    simp [clipOf, hb]
  refine ⟨?_, hsome, ?_⟩
  · rw [hdef]
    cases lastIdle (labelPairs dataEgret.Mc) <;> rfl
  · constructor
    · intro hnone p hp
      cases hl : lastIdle (labelPairs dataEgret.Mc) with
      | some q =>
        obtain ⟨action, _, hq⟩ := hsome q hl
        rw [hnone] at hq
        cases hq
      | none =>
        have hnil : (labelPairs dataEgret.Mc).filter isIdle = [] := by
          simpa [lastIdle] using hl
        have := List.filter_eq_nil_iff.mp hnil p hp
        simpa [isIdle] using this
    · intro hno
      have hnil : (labelPairs dataEgret.Mc).filter isIdle = [] := by
        apply List.filter_eq_nil_iff.mpr
        intro p hp
        simp [isIdle, hno p hp]
      rw [hdef]
      simp [lastIdle, hnil]

theorem parseActions_default_last_idle_witness :
    parseActions exMcIdle = .ok exIdleResource ∧
    exIdleResource.DefaultAction = some exRunIdleClip ∧
    (exIdleResource.DefaultAction = (lastIdle (labelPairs exMcIdle.Mc)).bind clipOf ∧
     (∀ p, lastIdle (labelPairs exMcIdle.Mc) = some p →
       ∃ action, buildAction p.1 p.2 = .ok action ∧
         exIdleResource.DefaultAction = some action) ∧
     (exIdleResource.DefaultAction = none ↔
       ∀ p ∈ labelPairs exMcIdle.Mc, stringsContains p.2.Name "idle" = false)) :=
  ⟨rfl, rfl, parseActions_default_last_idle exMcIdle exIdleResource rfl⟩

theorem Frame_at_cursor {D : Type} (ac : AnimationComponent D) (cur : Animation) (f : Frame)
    (hcur : ac.CurrentAnimation = some cur) (h0 : 0 ≤ ac.index)
    (hf : cur.Frames[ac.index.toNat]? = some f) :
    ac.Frame = .ok (some f) := by
  unfold AnimationComponent.Frame indexSlice
  have hne : cur.Frames.length ≠ 0 := by
    intro h
    rw [List.length_eq_zero] at h
    simp [h] at hf
  have hneg : ¬ (ac.index < 0) := by omega
  simp [hcur, hne, hneg, hf]

theorem Frame_empty {D : Type} (ac : AnimationComponent D) (cur : Animation)
    (hcur : ac.CurrentAnimation = some cur) (hempty : cur.Frames = []) :
    ac.Frame = .ok none := by
  unfold AnimationComponent.Frame
  simp [hcur, hempty]

/-- C6: when the current clip has a frame `f` at the cursor, `Bias p` returns the point
`(|f.Bias.X|, |f.Bias.Y|)` for every position `p`: both components are non-negative, the
result does not depend on `p`, and a stored bias of `(-3, 4)` gives `(3, 4)`. -/
theorem Bias_absolute_value {D : Type} (ac : AnimationComponent D) (cur : Animation)
    (f : Frame) (p : Point) (hcur : ac.CurrentAnimation = some cur) (h0 : 0 ≤ ac.index)
    (hf : cur.Frames[ac.index.toNat]? = some f) :
    Bias ac p = .ok { X := |f.Bias.X|, Y := |f.Bias.Y| } ∧
    (∃ r, Bias ac p = .ok r ∧ 0 ≤ r.X ∧ 0 ≤ r.Y) ∧
    (∀ q, Bias ac q = Bias ac p) ∧
    (f.Bias = { X := -3, Y := 4 } → Bias ac p = .ok { X := 3, Y := 4 }) := by
  have hB : ∀ q, Bias ac q = .ok { X := |f.Bias.X|, Y := |f.Bias.Y| } := by
    intro q
    unfold Bias
    rw [Frame_at_cursor ac cur f hcur h0 hf]
  refine ⟨hB p, ⟨_, hB p, abs_nonneg _, abs_nonneg _⟩, fun q => by rw [hB q, hB p], ?_⟩
  intro hb
  rw [hB p, hb]
  norm_num [abs_of_nonneg]

theorem Bias_absolute_value_witness :
    exBiasState.CurrentAnimation = some exBiasClip ∧ 0 ≤ exBiasState.index ∧
    exBiasClip.Frames[exBiasState.index.toNat]? =
      some { Index := 1, Bias := { X := -3, Y := 4 } } ∧
    Bias exBiasState { X := 7, Y := 9 } = .ok { X := 3, Y := 4 } :=
  ⟨rfl, by decide, rfl,
    (Bias_absolute_value exBiasState exBiasClip { Index := 1, Bias := { X := -3, Y := 4 } }
      { X := 7, Y := 9 } rfl (by decide) rfl).2.2.2 rfl⟩

/-- C7: with a current clip set, (a) if the clip has zero frames and the drawable table
has a slot 0, then `Frame` returns no frame, `Cell` returns slot 0 and `Bias p` returns `p`
for every `p`; (b) if the clip has a frame `f` at the cursor, then `Frame` returns `f` and
`Cell` is the read of the drawable table at `f.Index`, so it returns the drawable stored
at that index. -/
theorem Cell_Bias_Frame_fallback {D : Type} (ac : AnimationComponent D) (cur : Animation)
    (hcur : ac.CurrentAnimation = some cur) :
    (cur.Frames = [] → ∀ d0, ac.Drawables[0]? = some d0 →
      ac.Frame = .ok none ∧ Cell ac = .ok d0 ∧ ∀ p, Bias ac p = .ok p) ∧
    (∀ f, 0 ≤ ac.index → cur.Frames[ac.index.toNat]? = some f →
      ac.Frame = .ok (some f) ∧ Cell ac = indexSlice ac.Drawables f.Index ∧
      ∀ d, 0 ≤ f.Index → ac.Drawables[f.Index.toNat]? = some d → Cell ac = .ok d) := by
  constructor
  · intro hempty d0 hd0
    have hF := Frame_empty ac cur hcur hempty
    refine ⟨hF, ?_, ?_⟩
    · unfold Cell
      rw [hF]
      exact indexSlice_natCast ac.Drawables 0 d0 hd0
    · intro p
      unfold Bias
      rw [hF]
  · intro f h0 hf
    have hF := Frame_at_cursor ac cur f hcur h0 hf
    have hC : Cell ac = indexSlice ac.Drawables f.Index := by
      unfold Cell
      rw [hF]
    refine ⟨hF, hC, ?_⟩
    intro d hi hd
    rw [hC]
    have := indexSlice_natCast ac.Drawables f.Index.toNat d hd
    rwa [Int.toNat_of_nonneg hi] at this

theorem Cell_Bias_Frame_fallback_witness :
    exEmptyState.CurrentAnimation = some exEmptyClip ∧
    exBiasState.CurrentAnimation = some exBiasClip ∧
    (exEmptyState.Frame = .ok none ∧ Cell exEmptyState = .ok 10 ∧
      ∀ p, Bias exEmptyState p = .ok p) ∧
    Cell exBiasState = .ok 11 :=
  ⟨rfl, rfl,
    (Cell_Bias_Frame_fallback exEmptyState exEmptyClip rfl).1 rfl 10 rfl,
    ((Cell_Bias_Frame_fallback exBiasState exBiasClip rfl).2
      { Index := 1, Bias := { X := -3, Y := 4 } } (by decide) rfl).2.2 11 (by decide) rfl⟩

/-- C8 as stated fails: `exPlayedEntity` is reached by one tick from `exStepEntity`, the
name `"missing"` is not registered, the tick after selecting it succeeds, and the rendered
drawable is still 11, which is not slot 0 of the drawable table (10). -/
theorem select_unregistered_not_slot_zero :
    updateEntity 1 exStepEntity = .ok exPlayedEntity ∧
    exPlayedEntity.AnimationComponent.Animations "missing" = none ∧
    exMissingEntity.AnimationComponent.Drawables[0]? = some 10 ∧
    ∃ e2, updateEntity 1 exMissingEntity = .ok e2 ∧ e2.RenderComponent.Drawable = 11 ∧
      some e2.RenderComponent.Drawable ≠ e2.AnimationComponent.Drawables[0]? := by
  refine ⟨?_, by decide, rfl, exMissingEntity, rfl, rfl, by decide⟩
  simp [updateEntity, exStepEntity, exPlayedEntity, Cell, Bias, NextFrame,
    AnimationComponent.Frame, indexSlice, exStepClip, exFrame]

/-- C8 (amended): for a clip name that is not registered, `SelectAnimationByName` leaves
the entity without a current clip, cursor 0.  If no default clip is configured, one tick
succeeds and leaves the entity, its rendered drawable included, unchanged; if a default
clip is configured, the tick is the tick of the entity with the default clip selected. -/
theorem select_unregistered_then_update {D : Type} (dt : ℚ) (e : animationEntity D)
    (name : String) (hmiss : e.AnimationComponent.Animations name = none) :
    (SelectAnimationByName e.AnimationComponent name).CurrentAnimation = none ∧
    (SelectAnimationByName e.AnimationComponent name).index = 0 ∧
    (e.AnimationComponent.def_ = none →
      updateEntity dt
          { e with AnimationComponent := SelectAnimationByName e.AnimationComponent name } =
        .ok { e with AnimationComponent := SelectAnimationByName e.AnimationComponent name }) ∧
    (∀ d, e.AnimationComponent.def_ = some d →
      updateEntity dt
          { e with AnimationComponent := SelectAnimationByName e.AnimationComponent name } =
        updateEntity dt
          { e with AnimationComponent :=
              SelectAnimationByAction e.AnimationComponent (some d) }) := by
  refine ⟨hmiss, rfl, ?_, ?_⟩
  · intro hdef
    simp [updateEntity, SelectAnimationByName, hmiss, hdef]
  · intro d hdef
    simp [updateEntity, SelectAnimationByName, SelectAnimationByAction, hmiss, hdef]

theorem select_unregistered_then_update_witness :
    exPlayedEntity.AnimationComponent.Animations "missing" = none ∧
    updateEntity 1 exMissingEntity = .ok exMissingEntity ∧
    exMissingEntity.RenderComponent.Drawable = exPlayedEntity.RenderComponent.Drawable :=
  ⟨by decide,
    (select_unregistered_then_update 1 exPlayedEntity "missing" (by decide)).2.2.1 rfl, rfl⟩

/-- C9: for an entity whose current clip is non-looping, whose cursor is at the last frame
`f` and whose elapsed time plus the tick delta reaches the rate, one tick publishes the
drawable stored at `f.Index` to the render component, sets the position to the absolute
bias of `f`, and in the same call clears the current clip (cursor and elapsed time 0). -/
theorem Update_renders_last_frame_then_clears {D : Type} (dt : ℚ) (e : animationEntity D)
    (cur : Animation) (f : Frame) (d : D) (n : Nat)
    (hcur : e.AnimationComponent.CurrentAnimation = some cur) (hloop : cur.Loop = false)
    (hidx : e.AnimationComponent.index = (n : Int)) (hlast : n + 1 = cur.Frames.length)
    (hf : cur.Frames[n]? = some f)
    (hrate : e.AnimationComponent.change + dt ≥ e.AnimationComponent.Rate)
    (hi : 0 ≤ f.Index) (hd : e.AnimationComponent.Drawables[f.Index.toNat]? = some d) :
    updateEntity dt e =
      .ok { AnimationComponent :=
              { e.AnimationComponent with CurrentAnimation := none, index := 0, change := 0 }
            RenderComponent := { Drawable := d }
            SpaceComponent := { Position := { X := |f.Bias.X|, Y := |f.Bias.Y| } } } := by
  obtain ⟨⟨drawables, anims, current, rate, index, change, dflt⟩, render, space⟩ := e
  simp only at hcur hidx hrate hd
  subst hcur hidx
  have hf2 : cur.Frames[((n : Int)).toNat]? = some f := by simpa using hf
  have hF : ∀ ac : AnimationComponent D, ac.CurrentAnimation = some cur → ac.index = (n : Int) →
      ac.Frame = .ok (some f) := by
    intro ac h1 h2
    exact Frame_at_cursor ac cur f h1 (by omega) (by rw [h2]; exact hf2)
  have hdi : indexSlice drawables f.Index = .ok d := by
    have := indexSlice_natCast drawables f.Index.toNat d hd
    rwa [Int.toNat_of_nonneg hi] at this
  have hFa := hF
    { Drawables := drawables, Animations := anims, CurrentAnimation := some cur,
      Rate := rate, index := (n : Int), change := change + dt, def_ := dflt } rfl rfl
  have hNa := NextFrame_last
    { Drawables := drawables, Animations := anims, CurrentAnimation := some cur,
      Rate := rate, index := (n : Int), change := change + dt, def_ := dflt } cur n rfl rfl hlast
  simp only [updateEntity]
  rw [if_pos hrate]
  simp only [Cell, Bias, hFa, hdi, hNa, hloop]
  simp

theorem Update_renders_last_frame_then_clears_witness :
    exLastFrameEntity.AnimationComponent.CurrentAnimation = some exOnceClip ∧
    exOnceClip.Loop = false ∧
    exLastFrameEntity.AnimationComponent.index = ((2 : Nat) : Int) ∧
    2 + 1 = exOnceClip.Frames.length ∧
    exOnceClip.Frames[2]? = some (exFrame 2) ∧
    exLastFrameEntity.AnimationComponent.change + 1 / 20
      ≥ exLastFrameEntity.AnimationComponent.Rate ∧
    updateEntity (1 / 20) exLastFrameEntity =
      .ok { AnimationComponent :=
              { exLastFrameEntity.AnimationComponent with
                CurrentAnimation := none, index := 0, change := 0 }
            RenderComponent := { Drawable := 12 }
            SpaceComponent :=
              { Position := { X := |(exFrame 2).Bias.X|, Y := |(exFrame 2).Bias.Y| } } } :=
  ⟨rfl, rfl, rfl, by decide, rfl, by norm_num [exLastFrameEntity],
    Update_renders_last_frame_then_clears (1 / 20) exLastFrameEntity exOnceClip (exFrame 2) 12 2
      rfl rfl rfl (by decide) rfl (by norm_num [exLastFrameEntity]) (by decide) rfl⟩

/-- C10: for an entity with no current clip and a default clip `dflt` configured, one tick
yields exactly what the active-clip tick of the specification yields on the entity with the
default clip selected and the cursor reset to 0: the default is selected and played in the
same tick. -/
theorem Update_autoselects_default_same_tick {D : Type} (dt : ℚ) (e : animationEntity D)
    (dflt : Animation) (hcur : e.AnimationComponent.CurrentAnimation = none)
    (hdef : e.AnimationComponent.def_ = some dflt) :
    updateEntity dt e = specActiveTick dt (specSelectDefault e dflt) := by
  simp only [updateEntity, specActiveTick, specSelectDefault, SelectAnimationByAction, hcur, hdef]
  split
  · simp only [bind, Except.bind, pure, Except.pure]
    cases Cell _ with
    | error p => rfl
    | ok v =>
      simp only
      cases Bias _ _ with
      | error p => rfl
      | ok w =>
        simp only
        cases NextFrame _ <;> rfl
  · rfl

theorem Update_autoselects_default_same_tick_witness :
    AddDefaultAnimation (NewAnimationComponent [10, 11, 12] (1 / 10)) (some exLoopClip) =
      .ok exDefaultEntity.AnimationComponent ∧
    exDefaultEntity.AnimationComponent.CurrentAnimation = none ∧
    exDefaultEntity.AnimationComponent.def_ = some exLoopClip ∧
    updateEntity (1 / 5) exDefaultEntity =
      specActiveTick (1 / 5) (specSelectDefault exDefaultEntity exLoopClip) :=
  ⟨rfl, rfl, rfl, Update_autoselects_default_same_tick (1 / 5) exDefaultEntity exLoopClip rfl rfl⟩

/-- C11: for an entity with no current clip and no default clip, one tick with any delta
succeeds and returns the entity unchanged: animation state (elapsed time and cursor
included), rendered drawable and position. -/
theorem Update_idle_unchanged {D : Type} (dt : ℚ) (e : animationEntity D)
    (hcur : e.AnimationComponent.CurrentAnimation = none)
    (hdef : e.AnimationComponent.def_ = none) :
    updateEntity dt e = .ok e := by
  simp [updateEntity, hcur, hdef]

theorem Update_idle_unchanged_witness :
    exIdleEntity.AnimationComponent.CurrentAnimation = none ∧
    exIdleEntity.AnimationComponent.def_ = none ∧
    updateEntity (3 / 4) exIdleEntity = .ok exIdleEntity :=
  ⟨rfl, rfl, Update_idle_unchanged (3 / 4) exIdleEntity rfl rfl⟩

theorem NextFrame_at_cursor {D : Type} (ac : AnimationComponent D) (cur : Animation) (f : Frame)
    (hcur : ac.CurrentAnimation = some cur) (h0 : 0 ≤ ac.index)
    (hf : cur.Frames[ac.index.toNat]? = some f) :
    ∃ ac3, NextFrame ac = .ok ac3 ∧ ac3.change = 0 := by
  have hlt : ac.index.toNat < cur.Frames.length := by
    by_contra h
    rw [List.getElem?_eq_none (by omega)] at hf
    cases hf
  have hidx : ac.index = ((ac.index.toNat : Nat) : Int) := (Int.toNat_of_nonneg h0).symm
  rcases Nat.lt_or_ge (ac.index.toNat + 1) cur.Frames.length with h | h
  · exact ⟨_, NextFrame_inner ac cur _ hcur hidx h, rfl⟩
  · exact ⟨_, NextFrame_last ac cur _ hcur hidx (by omega), rfl⟩

/-- C12: for an entity whose current clip has a frame `f` at the cursor: if the elapsed time
plus the delta stays below the rate, the tick only adds the delta to the elapsed time; if it
reaches the rate, the tick sets the rendered drawable to the result of `Cell`, the position
to `Bias` of the old position, and the animation state to the result of `NextFrame`, whose
elapsed time is 0. -/
theorem Update_rate_gate {D : Type} (dt : ℚ) (e : animationEntity D) (cur : Animation)
    (f : Frame) (hcur : e.AnimationComponent.CurrentAnimation = some cur)
    (h0 : 0 ≤ e.AnimationComponent.index)
    (hf : cur.Frames[e.AnimationComponent.index.toNat]? = some f) :
    (e.AnimationComponent.change + dt < e.AnimationComponent.Rate →
      updateEntity dt e =
        .ok { e with AnimationComponent :=
                { e.AnimationComponent with change := e.AnimationComponent.change + dt } }) ∧
    (e.AnimationComponent.change + dt ≥ e.AnimationComponent.Rate →
      ∀ d, Cell e.AnimationComponent = .ok d →
        ∃ p ac3, Bias e.AnimationComponent e.SpaceComponent.Position = .ok p ∧
          NextFrame { e.AnimationComponent with change := e.AnimationComponent.change + dt }
            = .ok ac3 ∧
          ac3.change = 0 ∧
          updateEntity dt e =
            .ok { AnimationComponent := ac3
                  RenderComponent := { Drawable := d }
                  SpaceComponent := { Position := p } }) := by
  obtain ⟨⟨drawables, anims, current, rate, index, change, dflt⟩, render, space⟩ := e
  simp only at hcur h0 hf
  subst hcur
  constructor
  · intro hlt
    have hn : ¬ (change + dt ≥ rate) := not_le.mpr hlt
    simp only [updateEntity]
    rw [if_neg hn]
  · intro hge d hd
    have hF : ∀ c : ℚ, AnimationComponent.Frame
        { Drawables := drawables, Animations := anims, CurrentAnimation := some cur,
          Rate := rate, index := index, change := c, def_ := dflt } = .ok (some f) :=
      fun c => Frame_at_cursor _ cur f rfl h0 hf
    obtain ⟨ac3, hN, hch⟩ := NextFrame_at_cursor
      { Drawables := drawables, Animations := anims, CurrentAnimation := some cur,
        Rate := rate, index := index, change := change + dt, def_ := dflt } cur f rfl h0 hf
    have hd2 : indexSlice drawables f.Index = .ok d := by
      simpa only [Cell, hF] using hd
    refine ⟨{ X := |f.Bias.X|, Y := |f.Bias.Y| }, ac3, ?_, hN, hch, ?_⟩
    · simp only [Bias, hF]
    · simp only [updateEntity]
      rw [if_pos hge]
      simp only [Cell, Bias, hF, hd2, hN]

theorem Update_rate_gate_witness :
    exGateEntity.AnimationComponent.CurrentAnimation = some exBiasClip ∧
    0 ≤ exGateEntity.AnimationComponent.index ∧
    exBiasClip.Frames[exGateEntity.AnimationComponent.index.toNat]? =
      some { Index := 1, Bias := { X := -3, Y := 4 } } ∧
    exGateEntity.AnimationComponent.change + 1 / 50 < exGateEntity.AnimationComponent.Rate ∧
    updateEntity (1 / 50) exGateEntity =
      .ok { exGateEntity with AnimationComponent :=
              { exGateEntity.AnimationComponent with
                change := exGateEntity.AnimationComponent.change + 1 / 50 } } ∧
    exGateEntity.AnimationComponent.change + 1 / 10 ≥ exGateEntity.AnimationComponent.Rate ∧
    Cell exGateEntity.AnimationComponent = .ok 11 ∧
    ∃ p ac3, Bias exGateEntity.AnimationComponent exGateEntity.SpaceComponent.Position = .ok p ∧
      NextFrame { exGateEntity.AnimationComponent with
                  change := exGateEntity.AnimationComponent.change + 1 / 10 } = .ok ac3 ∧
      ac3.change = 0 ∧
      updateEntity (1 / 10) exGateEntity =
        .ok { AnimationComponent := ac3
              RenderComponent := { Drawable := 11 }
              SpaceComponent := { Position := p } } :=
  ⟨rfl, by decide, rfl, by norm_num [exGateEntity],
    (Update_rate_gate (1 / 50) exGateEntity exBiasClip
      { Index := 1, Bias := { X := -3, Y := 4 } } rfl (by decide) rfl).1
      (by norm_num [exGateEntity]),
    by norm_num [exGateEntity], rfl,
    (Update_rate_gate (1 / 10) exGateEntity exBiasClip
      { Index := 1, Bias := { X := -3, Y := 4 } } rfl (by decide) rfl).2
      (by norm_num [exGateEntity]) 11 rfl⟩

/-- C13 at the failing input: the component of `exDefaultEntity` is the result of
`AddDefaultAnimation` with `exLoopClip` on a fresh component, so its default clip is
`exLoopClip`; after `SelectAnimationByAction` with a nil action the current clip is nil
(cursor 0), not the default clip that the docstring of the method and the claim promise. -/
theorem SelectAnimationByAction_nil_not_default :
    AddDefaultAnimation (NewAnimationComponent [10, 11, 12] (1 / 10)) (some exLoopClip) =
      .ok exDefaultEntity.AnimationComponent ∧
    exDefaultEntity.AnimationComponent.def_ = some exLoopClip ∧
    (SelectAnimationByAction exDefaultEntity.AnimationComponent none).CurrentAnimation = none ∧
    (SelectAnimationByAction exDefaultEntity.AnimationComponent none).index = 0 ∧
    (SelectAnimationByAction exDefaultEntity.AnimationComponent none).CurrentAnimation ≠
      exDefaultEntity.AnimationComponent.def_ := by
  refine ⟨rfl, rfl, rfl, rfl, ?_⟩
  intro h
  cases h

theorem spriteRegionsLoop_eq (regions : String → Option Region) (frames : List RawFrame) :
    ∀ spriteRegions : List SpriteRegion,
      spriteRegionsLoop regions frames spriteRegions =
        spriteRegions ++ frames.filterMap (slotOf regions) := by
  induction frames with
  | nil => intro acc; simp [spriteRegionsLoop]
  | cons frame rest ih =>
    intro acc
    rw [spriteRegionsLoop]
    cases h : regions frame.ResourceName with
    | none => simp [ih, List.filterMap_cons, slotOf, h]
    | some region => simp [ih, List.filterMap_cons, slotOf, h]

theorem filterMap_slotOf_length (regions : String → Option Region) (frames : List RawFrame) :
    (frames.filterMap (slotOf regions)).length = (frames.filter (hasRegion regions)).length := by
  induction frames with
  | nil => rfl
  | cons frame rest ih =>
    cases h : regions frame.ResourceName <;>
      simp [List.filterMap_cons, List.filter_cons, slotOf, hasRegion, h, ih]

theorem slotOf_eq (regions : String → Option Region) :
    slotOf regions = fun frame =>
      (regions frame.ResourceName).map (fun region =>
        ({ Position := { X := (region.X : ℚ), Y := (region.Y : ℚ) }
           Width := region.W, Height := region.H } : SpriteRegion)) := rfl

theorem hasRegion_eq (regions : String → Option Region) :
    hasRegion regions = fun frame => (regions frame.ResourceName).isSome := rfl

/-- C14: when the texture resolves, `newSpritesheetFromFile` returns a spritesheet and no
error, and its region table is the flat frame entries walked in order, every entry whose
region name is absent from the region map dropped and every other entry mapped to the slot
with position `(region.X, region.Y)`, width `region.W` and height `region.H` of its named
region; its length is the number of entries with a matching region. -/
theorem newSpritesheetFromFile_region_table {T : Type} (files : Files T) (textureName : String)
    (mc : MovieClip) (img : T) (hres : files.Resource textureName = .ok (some img)) :
    ∃ sheet, newSpritesheetFromFile files textureName mc = (some sheet, none) ∧
      sheet.texture = img ∧
      sheet.cells = mc.AllFrames.filterMap (fun frame =>
        (mc.Regions frame.ResourceName).map (fun region =>
          ({ Position := { X := (region.X : ℚ), Y := (region.Y : ℚ) }
             Width := region.W, Height := region.H } : SpriteRegion))) ∧
      sheet.cells.length =
        (mc.AllFrames.filter (fun frame => (mc.Regions frame.ResourceName).isSome)).length := by
  refine ⟨{ texture := img, cells := spriteRegionsLoop mc.Regions mc.AllFrames [] }, ?_, rfl,
    ?_, ?_⟩
  · simp [newSpritesheetFromFile, hres]
  · rw [spriteRegionsLoop_eq, List.nil_append, slotOf_eq]
  · rw [spriteRegionsLoop_eq, List.nil_append, filterMap_slotOf_length, hasRegion_eq]

theorem newSpritesheetFromFile_region_table_witness :
    (exFiles exSkipMc).Resource "hero.png" = .ok (some 7) ∧
    exSkipMc.AllFrames.filterMap (fun frame =>
        (exSkipMc.Regions frame.ResourceName).map (fun region =>
          ({ Position := { X := (region.X : ℚ), Y := (region.Y : ℚ) }
             Width := region.W, Height := region.H } : SpriteRegion))) =
      [{ Position := { X := 16, Y := 0 }, Width := 16, Height := 32 }] ∧
    ∃ sheet, newSpritesheetFromFile (exFiles exSkipMc) "hero.png" exSkipMc = (some sheet, none) ∧
      sheet.texture = 7 ∧
      sheet.cells = exSkipMc.AllFrames.filterMap (fun frame =>
        (exSkipMc.Regions frame.ResourceName).map (fun region =>
          ({ Position := { X := (region.X : ℚ), Y := (region.Y : ℚ) }
             Width := region.W, Height := region.H } : SpriteRegion))) ∧
      sheet.cells.length =
        (exSkipMc.AllFrames.filter
          (fun frame => (exSkipMc.Regions frame.ResourceName).isSome)).length :=
  ⟨rfl, by decide,
    newSpritesheetFromFile_region_table (exFiles exSkipMc) "hero.png" exSkipMc 7 rfl⟩

/-- C15 at the failing input `exSkipMc` (entry `"a"` has no region): `parseMC` returns one
region slot, built from entry `"b"`, and a clip whose frames carry the slot indices 0 and 1.
The frame built from `"b"` has index 1, which is not below the table length 1, and the
frame built from `"a"` has index 0, the slot of `"b"`; over a one-slot drawable table `Cell`
panics at cursor 1. -/
theorem parseMC_index_misses_skipped_entry :
    parseMC (exFiles exSkipMc) "hero.mc.json" (.ok []) =
      .ok (some { url := "hero.mc.json"
                  SpriteSheet := some { texture := 7
                                        cells := [regionSlot { X := 16, Y := 0, W := 16, H := 32 }] }
                  clips := { Actions := [exSkipClip], DefaultAction := none } }, none) ∧
    exSkipClip.Frames[1]? = some { Index := 1, Bias := { X := 3, Y := 4 } } ∧
    exSkipMc.AllFrames[1]? = some { ResourceName := "b", X := 3, Y := 4 } ∧
    ¬ ((1 : Int) < ([regionSlot { X := 16, Y := 0, W := 16, H := 32 }] : List SpriteRegion).length)
    ∧ Cell { SelectAnimationByAction (NewAnimationComponent [100] 0) (some exSkipClip) with
             index := 1 } = .error .indexOutOfRange := by
  refine ⟨?_, rfl, rfl, by decide, rfl⟩
  rfl

theorem labelLoop_succeeds (item : McItem) :
    ∀ (labels : List Label) (resource : MovieClipResource),
      (∀ label ∈ labels, labelInRange (item, label)) →
      ∃ r, labelLoop item labels resource = .ok r := by
  intro labels
  induction labels with
  | nil => intro resource _; exact ⟨resource, rfl⟩
  | cons label rest ih =>
    intro resource hall
    obtain ⟨⟨h1, h2⟩, h3⟩ := hall label (List.mem_cons_self _ _)
    rw [labelLoop, buildAction_ok item label h1 h2 h3]
    exact ih _ (fun l hl => hall l (List.mem_cons_of_mem _ hl))

theorem itemLoop_succeeds :
    ∀ (items : List McItem) (resource : MovieClipResource),
      (∀ p ∈ labelPairs items, labelInRange p) →
      ∃ r, itemLoop items resource = .ok r := by
  intro items
  induction items with
  | nil => intro resource _; exact ⟨resource, rfl⟩
  | cons item rest ih =>
    intro resource hall
    have hlabels : ∀ label ∈ item.Labels, labelInRange (item, label) := by
      intro label hl
      apply hall
      simp only [labelPairs, List.mem_append, List.mem_map]
      exact Or.inl ⟨label, hl, rfl⟩
    obtain ⟨r1, hr1⟩ := labelLoop_succeeds item item.Labels resource hlabels
    rw [itemLoop, hr1]
    apply ih
    intro p hp
    apply hall
    simp only [labelPairs, List.mem_append]
    exact Or.inr hp

theorem labelLoop_actions (item : McItem) :
    ∀ (labels : List Label) (resource r : MovieClipResource),
      labelLoop item labels resource = .ok r →
      r.Actions =
        resource.Actions ++ (labels.map (fun label => (item, label))).filterMap clipOf := by
  intro labels
  induction labels with
  | nil =>
    intro resource r h
    simp only [labelLoop, Except.ok.injEq] at h
    subst h
    simp
  | cons label rest ih =>
    intro resource r h
    rw [labelLoop] at h
    cases hb : buildAction item label with
    | error p => simp [hb] at h
    | ok action =>
      simp only [hb] at h
      rw [ih _ r h]
      cases stringsContains label.Name "idle" <;>
        simp [List.filterMap_cons, clipOf, hb]

theorem itemLoop_actions :
    ∀ (items : List McItem) (resource r : MovieClipResource),
      itemLoop items resource = .ok r →
      r.Actions = resource.Actions ++ (labelPairs items).filterMap clipOf := by
  intro items
  induction items with
  | nil =>
    intro resource r h
    simp only [itemLoop, Except.ok.injEq] at h
    subst h
    simp [labelPairs]
  | cons item rest ih =>
    intro resource r h
    rw [itemLoop] at h
    cases hl : labelLoop item item.Labels resource with
    | error p => simp [hl] at h
    | ok resource1 =>
      simp only [hl] at h
      rw [ih resource1 r h, labelLoop_actions item item.Labels resource resource1 hl]
      simp [labelPairs, List.filterMap_append]

/-- C16 as stated fails: every label of `exShortMc` has `frame_start ≥ 1` and
`frame_end ≥ frame_start`, the payload decodes and the texture loads as a texture, yet
`parseMC` neither returns a resource nor an error: slicing the group's two frame entries
up to `frame_end - 1 = 999` panics. -/
theorem parseMC_panics_on_long_label :
    (∀ p ∈ labelPairs exShortMc.Mc, labelWellFormed p.2) ∧
    (exFiles exShortMc).Unmarshal [] = .ok exShortMc ∧
    (exFiles exShortMc).Load ((exFiles exShortMc).texturePath "hero.mc.json" exShortMc.File)
      = none ∧
    (exFiles exShortMc).Resource
      ((exFiles exShortMc).texturePath "hero.mc.json" exShortMc.File) = .ok (some 7) ∧
    parseMC (exFiles exShortMc) "hero.mc.json" (.ok []) = .error .indexOutOfRange := by
  refine ⟨?_, rfl, rfl, rfl, rfl⟩
  intro p hp
  simp only [exShortMc, labelPairs, List.map_cons, List.map_nil, List.append_nil,
    List.mem_singleton] at hp
  subst hp
  exact ⟨by decide, by decide⟩

/-- C16 (amended): once the payload bytes are read, `parseMC` returns an error only for a
decode error or a resource-load error (load failure, unresolved resource, resource not a
texture), and then returns no resource; for every decoded descriptor whose labels all have
`frame_start ≥ 1`, `frame_end ≥ frame_start` and `frame_end ≤ L + 1`, `L` being the number
of frame entries of the label's group, and whose texture loads as a texture, `parseMC`
returns a resource and no error, without a panic. -/
theorem parseMC_errors_and_success {T : Type} (files : Files T) (url : String)
    (bytes : List Nat) :
    (∀ r err, parseMC files url (.ok bytes) = .ok (r, some err) →
      r = none ∧
      ((∃ msg, files.Unmarshal bytes = .error msg ∧ err = .decode msg) ∨
       ∃ mc, files.Unmarshal bytes = .ok mc ∧
        ((∃ msg, files.Load (files.texturePath url mc.File) = some msg ∧ err = .load msg) ∨
         (∃ msg, files.Resource (files.texturePath url mc.File) = .error msg ∧
            err = .resource (files.texturePath url mc.File) msg) ∨
         (files.Resource (files.texturePath url mc.File) = .ok none ∧
            err = .notTexture (files.texturePath url mc.File))))) ∧
    (∀ mc img, files.Unmarshal bytes = .ok mc →
      files.Load (files.texturePath url mc.File) = none →
      files.Resource (files.texturePath url mc.File) = .ok (some img) →
      (∀ p ∈ labelPairs mc.Mc, labelInRange p) →
      ∃ res, parseMC files url (.ok bytes) = .ok (some res, none)) := by
  constructor
  · intro r err h
    simp only [parseMC] at h
    cases hU : files.Unmarshal bytes with
    | error msg =>
      simp only [hU, Except.ok.injEq, Prod.mk.injEq, Option.some.injEq] at h
      exact ⟨h.1.symm, Or.inl ⟨msg, rfl, h.2.symm⟩⟩
    | ok mc =>
      simp only [hU] at h
      cases hL : files.Load (files.texturePath url mc.File) with
      | some msg =>
        simp only [hL, Except.ok.injEq, Prod.mk.injEq, Option.some.injEq] at h
        exact ⟨h.1.symm, Or.inr ⟨mc, rfl, Or.inl ⟨msg, hL, h.2.symm⟩⟩⟩
      | none =>
        simp only [hL, newSpritesheetFromFile] at h
        cases hR : files.Resource (files.texturePath url mc.File) with
        | error msg =>
          simp only [hR, Except.ok.injEq, Prod.mk.injEq, Option.some.injEq] at h
          exact ⟨h.1.symm, Or.inr ⟨mc, rfl, Or.inr (Or.inl ⟨msg, hR, h.2.symm⟩)⟩⟩
        | ok tex =>
          cases tex with
          | none =>
            simp only [hR, Except.ok.injEq, Prod.mk.injEq, Option.some.injEq] at h
            exact ⟨h.1.symm, Or.inr ⟨mc, rfl, Or.inr (Or.inr ⟨hR, h.2.symm⟩)⟩⟩
          | some img =>
            simp only [hR] at h
            cases hP : parseActions mc with
            | error p => simp [hP] at h
            | ok resource => simp [hP] at h
  · intro mc img hU hL hR hall
    obtain ⟨resource, hP⟩ := itemLoop_succeeds mc.Mc { Actions := [], DefaultAction := none } hall
    refine ⟨{ url := url
              SpriteSheet := some { texture := img
                                    cells := spriteRegionsLoop mc.Regions mc.AllFrames [] }
              clips := resource }, ?_⟩
    simp only [parseMC, hU, hL, newSpritesheetFromFile, hR, parseActions, hP]

theorem parseMC_errors_and_success_witness :
    parseMC (exFilesNoTexture exMcIdle) "hero.mc.json" (.ok []) =
      .ok (none, some (.notTexture "hero.png")) ∧
    (∀ p ∈ labelPairs exMcIdle.Mc, labelInRange p) ∧
    ∃ res, parseMC (exFiles exMcIdle) "hero.mc.json" (.ok []) = .ok (some res, none) :=
  ⟨rfl, by decide,
    (parseMC_errors_and_success (exFiles exMcIdle) "hero.mc.json" []).2 exMcIdle 7 rfl rfl rfl
      (by decide)⟩

theorem find?_filter_ne {D : Type} (es : List (Nat × animationEntity D)) (id id1 : Nat)
    (hne : id1 ≠ id) :
    (es.filter (fun p => p.1 != id)).find? (fun p => p.1 == id1) =
      es.find? (fun p => p.1 == id1) := by
  induction es with
  | nil => rfl
  | cons entry rest ih =>
    by_cases h : entry.1 = id
    · have h1 : ¬ entry.1 = id1 := by rw [h]; exact fun h2 => hne h2.symm
      rw [List.filter_cons_of_neg (by simp [h]), List.find?_cons_of_neg _ (by simp [h1]), ih]
    · rw [List.filter_cons_of_pos (by simp [h])]
      by_cases h1 : entry.1 = id1
      · rw [List.find?_cons_of_pos _ (by simp [h1]), List.find?_cons_of_pos _ (by simp [h1])]
      · rw [List.find?_cons_of_neg _ (by simp [h1]), List.find?_cons_of_neg _ (by simp [h1]), ih]

theorem find?_filter_self {D : Type} (es : List (Nat × animationEntity D)) (id : Nat) :
    (es.filter (fun p => p.1 != id)).find? (fun p => p.1 == id) = none := by
  induction es with
  | nil => rfl
  | cons entry rest ih =>
    by_cases h : entry.1 = id
    · rw [List.filter_cons_of_neg (by simp [h]), ih]
    · rw [List.filter_cons_of_pos (by simp [h]), List.find?_cons_of_neg _ (by simp [h]), ih]

theorem filter_ne_of_find?_none {D : Type} (es : List (Nat × animationEntity D)) (id : Nat)
    (h : es.find? (fun p => p.1 == id) = none) :
    es.filter (fun p => p.1 != id) = es := by
  induction es with
  | nil => rfl
  | cons entry rest ih =>
    by_cases he : entry.1 = id
    · rw [List.find?_cons_of_pos _ (by simp [he])] at h
      cases h
    · rw [List.find?_cons_of_neg _ (by simp [he])] at h
      rw [List.filter_cons_of_pos (by simp [he]), ih h]

/-- C17: `Add` makes the registry map the id to exactly the given triple, overwrites an
earlier entry of that id and leaves every other id's entry unchanged, so adding the same
triple twice equals adding it once; `Remove` deletes the entry of the id and no other, and
`Remove` of an untracked id, also on the nil map, leaves the registry unchanged. -/
theorem Add_Remove_registry {D : Type} (a : AnimationSystem D) (id : Nat)
    (anim : AnimationComponent D) (render : RenderComponent D) (space : SpaceComponent) :
    (Add a id anim render space).lookup id =
      some { AnimationComponent := anim, RenderComponent := render, SpaceComponent := space } ∧
    (∀ id1, id1 ≠ id → (Add a id anim render space).lookup id1 = a.lookup id1) ∧
    Add (Add a id anim render space) id anim render space = Add a id anim render space ∧
    (Remove a id).lookup id = none ∧
    (∀ id1, id1 ≠ id → (Remove a id).lookup id1 = a.lookup id1) ∧
    (a.lookup id = none → Remove a id = a) ∧
    Remove { entities := none } id = ({ entities := none } : AnimationSystem D) := by
  refine ⟨?_, ?_, ?_, ?_, ?_, ?_, rfl⟩
  · simp [AnimationSystem.lookup, AnimationSystem.entries, Add]
  · intro id1 hne
    have hne2 : ¬ id = id1 := fun h => hne h.symm
    have hE : (Add a id anim render space).entries =
        (id, { AnimationComponent := anim, RenderComponent := render, SpaceComponent := space })
          :: a.entries.filter (fun p => p.1 != id) := rfl
    unfold AnimationSystem.lookup
    rw [hE, List.find?_cons_of_neg _ (by simp [hne2]), find?_filter_ne _ id id1 hne]
  · have hE : (Add a id anim render space).entries =
        (id, { AnimationComponent := anim, RenderComponent := render, SpaceComponent := space })
          :: a.entries.filter (fun p => p.1 != id) := rfl
    have hF : ((Add a id anim render space).entries.filter (fun p => p.1 != id)) =
        a.entries.filter (fun p => p.1 != id) := by
      rw [hE, List.filter_cons_of_neg (by simp), List.filter_filter]
      simp
    unfold Add
    rw [show (Add a id anim render space) = _ from rfl] at hF
    simp only [Add] at hF ⊢
    rw [hF]
  · cases a with
    | mk entities =>
      cases entities with
      | none => rfl
      | some es =>
        simp only [Remove, AnimationSystem.lookup, AnimationSystem.entries,
          find?_filter_self, Option.map_none']
  · intro id1 hne
    cases a with
    | mk entities =>
      cases entities with
      | none => rfl
      | some es =>
        simp only [Remove, AnimationSystem.lookup, AnimationSystem.entries,
          find?_filter_ne es id id1 hne]
  · intro hnone
    cases a with
    | mk entities =>
      cases entities with
      | none => rfl
      | some es =>
        have hf : es.find? (fun p => p.1 == id) = none := by
          simpa [AnimationSystem.lookup, AnimationSystem.entries] using hnone
        simp only [Remove, filter_ne_of_find?_none es id hf]

theorem Add_Remove_registry_witness :
    (3 : Nat) ≠ 1 ∧ exSystem.lookup 3 = none ∧
    (Add exSystem 1 exIdleEntity.AnimationComponent exIdleEntity.RenderComponent
        exIdleEntity.SpaceComponent).lookup 3 = exSystem.lookup 3 ∧
    Remove exSystem 3 = exSystem :=
  ⟨by decide, rfl,
    (Add_Remove_registry exSystem 1 exIdleEntity.AnimationComponent
      exIdleEntity.RenderComponent exIdleEntity.SpaceComponent).2.1 3 (by decide),
    (Add_Remove_registry exSystem 3 exIdleEntity.AnimationComponent
      exIdleEntity.RenderComponent exIdleEntity.SpaceComponent).2.2.2.2.2.1 rfl⟩

theorem cursorInRange_select {D : Type} (ac : AnimationComponent D) (action : Option Animation) :
    cursorInRange { ac with CurrentAnimation := action, index := 0 } := by
  intro cur _ hne
  refine ⟨le_refl _, ?_⟩
  have : 0 < cur.Frames.length := List.length_pos.mpr hne
  simp only
  omega

theorem cursorInRange_AddAnimation {D : Type} (ac ac1 : AnimationComponent D)
    (action : Option Animation) (h : AddAnimation ac action = .ok ac1)
    (hinv : cursorInRange ac) : cursorInRange ac1 := by
  cases action with
  | none => simp [AddAnimation] at h
  | some a =>
    simp only [AddAnimation, Except.ok.injEq] at h
    subst h
    exact hinv

theorem cursorInRange_AddAnimations {D : Type} (actions : List (Option Animation)) :
    ∀ (ac ac1 : AnimationComponent D), AddAnimations ac actions = .ok ac1 →
      cursorInRange ac → cursorInRange ac1 := by
  induction actions with
  | nil =>
    intro ac ac1 h hinv
    simp only [AddAnimations, Except.ok.injEq] at h
    subst h
    exact hinv
  | cons action rest ih =>
    intro ac ac1 h hinv
    rw [AddAnimations] at h
    cases ha : AddAnimation ac action with
    | error p => simp [ha] at h
    | ok ac2 =>
      simp only [ha] at h
      exact ih ac2 ac1 h (cursorInRange_AddAnimation ac ac2 action ha hinv)

theorem cursorInRange_NextFrame {D : Type} (ac ac1 : AnimationComponent D)
    (h : NextFrame ac = .ok ac1) (hinv : cursorInRange ac) : cursorInRange ac1 := by
  unfold NextFrame at h
  cases hcur : ac.CurrentAnimation with
  | none => simp [hcur] at h
  | some cur =>
    simp only [hcur] at h
    by_cases hlen : cur.Frames.length = 0
    · simp only [hlen, if_true, Except.ok.injEq] at h
      subst h
      exact hinv
    · have hne : cur.Frames ≠ [] := fun h0 => hlen (by simp [h0])
      obtain ⟨h0, _⟩ := hinv cur hcur hne
      simp only [hlen, if_false] at h
      by_cases hge : ac.index + 1 ≥ (cur.Frames.length : Int)
      · simp only [hge, if_true] at h
        cases hloop : cur.Loop with
        | false =>
          simp only [hloop, Bool.not_false, if_true, Except.ok.injEq] at h
          subst h
          intro c hc
          cases hc
        | true =>
          simp only [hloop, Bool.not_true, Bool.false_eq_true, if_false, Except.ok.injEq] at h
          subst h
          intro c hc hcne
          simp only at hc
          cases hc
          refine ⟨le_refl _, ?_⟩
          simp only
          omega
      · simp only [hge, if_false, Except.ok.injEq] at h
        subst h
        intro c hc hcne
        simp only at hc
        cases hc
        simp only
        omega

theorem cursorInRange_change {D : Type} (ac : AnimationComponent D) (c : ℚ)
    (hinv : cursorInRange ac) : cursorInRange { ac with change := c } := hinv

theorem cursorInRange_updateEntity {D : Type} (dt : ℚ) (e e1 : animationEntity D)
    (h : updateEntity dt e = .ok e1) (hinv : cursorInRange e.AnimationComponent) :
    cursorInRange e1.AnimationComponent := by
  have key : ∀ ac0 : AnimationComponent D, cursorInRange ac0 →
      (if ac0.change + dt ≥ ac0.Rate then
        match Cell { ac0 with change := ac0.change + dt } with
        | .error p => .error p
        | .ok drawable =>
          match Bias { ac0 with change := ac0.change + dt } e.SpaceComponent.Position with
          | .error p => .error p
          | .ok position =>
            match NextFrame { ac0 with change := ac0.change + dt } with
            | .error p => .error p
            | .ok ac3 =>
              .ok { AnimationComponent := ac3
                    RenderComponent := { e.RenderComponent with Drawable := drawable }
                    SpaceComponent := { e.SpaceComponent with Position := position } }
      else .ok { e with AnimationComponent := { ac0 with change := ac0.change + dt } })
        = Except.ok e1 → cursorInRange e1.AnimationComponent := by
    intro ac0 hinv0 hk
    split at hk
    · split at hk
      · cases hk
      · split at hk
        · cases hk
        · split at hk
          · cases hk
          · rename_i ac3 hN
            simp only [Except.ok.injEq] at hk
            subst hk
            exact cursorInRange_NextFrame _ ac3 hN (cursorInRange_change ac0 _ hinv0)
    · simp only [Except.ok.injEq] at hk
      subst hk
      exact cursorInRange_change ac0 _ hinv0
  obtain ⟨⟨drawables, anims, current, rate, index, change, dflt⟩, render, space⟩ := e
  unfold updateEntity at h
  cases current with
  | none =>
    cases dflt with
    | none =>
      simp only [Except.ok.injEq] at h
      subst h
      exact hinv
    | some d =>
      exact key (SelectAnimationByAction
        { Drawables := drawables, Animations := anims, CurrentAnimation := none,
          Rate := rate, index := index, change := change, def_ := some d } (some d))
        (cursorInRange_select _ _) h
  | some cur =>
    exact key
      { Drawables := drawables, Animations := anims, CurrentAnimation := some cur,
        Rate := rate, index := index, change := change, def_ := dflt } hinv h

theorem cursorInRange_applyOp {D : Type} (op : Op) (e e1 : animationEntity D)
    (h : applyOp op e = .ok e1) (hinv : cursorInRange e.AnimationComponent) :
    cursorInRange e1.AnimationComponent := by
  have hwith : ∀ r : Except Panic (AnimationComponent D), withComponent e r = .ok e1 →
      (∀ ac, r = .ok ac → cursorInRange ac) → cursorInRange e1.AnimationComponent := by
    intro r hr hall
    cases r with
    | error p => simp [withComponent] at hr
    | ok ac =>
      simp only [withComponent, Except.ok.injEq] at hr
      subst hr
      exact hall ac rfl
  cases op with
  | addAnimation action =>
    exact hwith _ h (fun ac hac => cursorInRange_AddAnimation _ ac action hac hinv)
  | addDefaultAnimation action =>
    refine hwith _ h (fun ac hac => ?_)
    unfold AddDefaultAnimation at hac
    cases ha : AddAnimation e.AnimationComponent action with
    | error p => simp [ha] at hac
    | ok ac1 =>
      simp only [ha, Except.ok.injEq] at hac
      subst hac
      exact cursorInRange_AddAnimation _ ac1 action ha hinv
  | addAnimations actions =>
    exact hwith _ h (fun ac hac => cursorInRange_AddAnimations actions _ ac hac hinv)
  | selectAnimationByName name =>
    simp only [applyOp, Except.ok.injEq] at h
    subst h
    exact cursorInRange_select _ _
  | selectAnimationByAction action =>
    simp only [applyOp, Except.ok.injEq] at h
    subst h
    exact cursorInRange_select _ _
  | nextFrame =>
    exact hwith _ h (fun ac hac => cursorInRange_NextFrame _ ac hac hinv)
  | update dt =>
    exact cursorInRange_updateEntity dt e e1 h hinv

theorem cursorInRange_runOps {D : Type} (ops : List Op) :
    ∀ (e e1 : animationEntity D), runOps ops e = .ok e1 →
      cursorInRange e.AnimationComponent → cursorInRange e1.AnimationComponent := by
  induction ops with
  | nil =>
    intro e e1 h hinv
    simp only [runOps, Except.ok.injEq] at h
    subst h
    exact hinv
  | cons op rest ih =>
    intro e e1 h hinv
    rw [runOps] at h
    cases ha : applyOp op e with
    | error p => simp [ha] at h
    | ok e2 =>
      simp only [ha] at h
      exact ih e2 e1 h (cursorInRange_applyOp op e e2 ha hinv)

theorem Frame_ok_of_cursorInRange {D : Type} (ac : AnimationComponent D) (cur : Animation)
    (hcur : ac.CurrentAnimation = some cur) (hinv : cursorInRange ac) :
    ∃ r, ac.Frame = .ok r := by
  by_cases hempty : cur.Frames = []
  · exact ⟨none, Frame_empty ac cur hcur hempty⟩
  · obtain ⟨h0, hlt⟩ := hinv cur hcur hempty
    have hlt2 : ac.index.toNat < cur.Frames.length := by omega
    exact ⟨some cur.Frames[ac.index.toNat],
      Frame_at_cursor ac cur _ hcur h0 (List.getElem?_eq_getElem hlt2)⟩

/-- C19: in every state reached from `NewAnimationComponent` by a run of `AddAnimation`,
`AddDefaultAnimation`, `AddAnimations`, `SelectAnimationByName`, `SelectAnimationByAction`,
`NextFrame` and `Update` ticks that does not panic, a current clip with at least one frame
has `0 ≤ cursor < number of frames`, and with a current clip set the frame lookup of `Frame`
returns without an out-of-range read. -/
theorem cursor_invariant_reachable {D : Type} (drawables : List D) (rate : ℚ)
    (render : RenderComponent D) (space : SpaceComponent) (ops : List Op)
    (e : animationEntity D)
    (h : runOps ops { AnimationComponent := NewAnimationComponent drawables rate
                      RenderComponent := render
                      SpaceComponent := space } = .ok e) :
    cursorInRange e.AnimationComponent ∧
    ∀ cur, e.AnimationComponent.CurrentAnimation = some cur →
      ∃ r, e.AnimationComponent.Frame = .ok r := by
  have hinit : cursorInRange (NewAnimationComponent drawables rate) := by
    intro cur hcur
    cases hcur
  have hinv := cursorInRange_runOps ops _ e h hinit
  exact ⟨hinv, fun cur hcur => Frame_ok_of_cursorInRange _ cur hcur hinv⟩

theorem cursor_invariant_reachable_witness :
    runOps exOps { AnimationComponent := NewAnimationComponent [10, 11, 12] 0
                   RenderComponent := { Drawable := 10 }
                   SpaceComponent := { Position := { X := 5, Y := 5 } } } = .ok exOpsResult ∧
    cursorInRange exOpsResult.AnimationComponent ∧
    ∀ cur, exOpsResult.AnimationComponent.CurrentAnimation = some cur →
      ∃ r, exOpsResult.AnimationComponent.Frame = .ok r :=
  have hrun : runOps exOps { AnimationComponent := NewAnimationComponent [10, 11, 12] 0
                             RenderComponent := { Drawable := 10 }
                             SpaceComponent := { Position := { X := 5, Y := 5 } } }
      = .ok exOpsResult := by
    simp [runOps, applyOp, exOps, exOpsResult, withComponent, AddAnimation,
      AddDefaultAnimation, SelectAnimationByName, SelectAnimationByAction, NextFrame,
      NewAnimationComponent, updateEntity, Cell, Bias, AnimationComponent.Frame, indexSlice,
      exOnceClip, exLoopClip, exFrame]
  ⟨hrun, cursor_invariant_reachable [10, 11, 12] 0 { Drawable := 10 }
    { Position := { X := 5, Y := 5 } } exOps exOpsResult hrun⟩

theorem updateEntity_empty_clip {D : Type} (dt : ℚ) (e : animationEntity D) (cur : Animation)
    (hcur : e.AnimationComponent.CurrentAnimation = some cur) (hempty : cur.Frames = []) :
    updateEntity dt e =
      if e.AnimationComponent.change + dt ≥ e.AnimationComponent.Rate then
        match indexSlice e.AnimationComponent.Drawables 0 with
        | .error p => .error p
        | .ok d =>
          .ok { AnimationComponent :=
                  { e.AnimationComponent with change := e.AnimationComponent.change + dt }
                RenderComponent := { Drawable := d }
                SpaceComponent := e.SpaceComponent }
      else
        .ok { e with AnimationComponent :=
                { e.AnimationComponent with change := e.AnimationComponent.change + dt } } := by
  obtain ⟨⟨drawables, anims, current, rate, index, change, dflt⟩, render, space⟩ := e
  simp only at hcur
  subst hcur
  have hF : ∀ c : ℚ, AnimationComponent.Frame
      { Drawables := drawables, Animations := anims, CurrentAnimation := some cur,
        Rate := rate, index := index, change := c, def_ := dflt } = .ok none :=
    fun c => Frame_empty _ cur rfl hempty
  have hN : ∀ c : ℚ, NextFrame
      { Drawables := drawables, Animations := anims, CurrentAnimation := some cur,
        Rate := rate, index := index, change := c, def_ := dflt } =
      .ok { Drawables := drawables, Animations := anims, CurrentAnimation := some cur,
            Rate := rate, index := index, change := c, def_ := dflt } := by
    intro c
    simp [NextFrame, hempty]
  simp only [updateEntity, Cell, Bias, hF, hN]

theorem updateTicks_empty_clip {D : Type} (cur : Animation) (hempty : cur.Frames = []) :
    ∀ (dts : List ℚ) (e e1 : animationEntity D),
      e.AnimationComponent.CurrentAnimation = some cur →
      updateTicks dts e = .ok e1 →
      e1.AnimationComponent.CurrentAnimation = some cur ∧
      e1.AnimationComponent.index = e.AnimationComponent.index ∧
      e1.AnimationComponent.Drawables = e.AnimationComponent.Drawables ∧
      e1.AnimationComponent.Rate = e.AnimationComponent.Rate ∧
      e1.AnimationComponent.change = e.AnimationComponent.change + dts.sum ∧
      e1.SpaceComponent = e.SpaceComponent := by
  intro dts
  induction dts with
  | nil =>
    intro e e1 hcur h
    simp only [updateTicks, Except.ok.injEq] at h
    subst h
    simp [hcur]
  | cons dt rest ih =>
    intro e e1 hcur h
    rw [updateTicks, updateEntity_empty_clip dt e cur hcur hempty] at h
    by_cases hge : e.AnimationComponent.change + dt ≥ e.AnimationComponent.Rate
    · rw [if_pos hge] at h
      cases hd : indexSlice e.AnimationComponent.Drawables 0 with
      | error p => simp [hd] at h
      | ok d =>
        simp only [hd] at h
        obtain ⟨h1, h2, h3, h4, h5, h6⟩ := ih _ e1 (by exact hcur) h
        refine ⟨h1, h2, h3, h4, ?_, h6⟩
        rw [h5, List.sum_cons]
        simp only
        ring
    · rw [if_neg hge] at h
      simp only at h
      obtain ⟨h1, h2, h3, h4, h5, h6⟩ := ih _ e1 (by exact hcur) h
      refine ⟨h1, h2, h3, h4, ?_, h6⟩
      rw [h5, List.sum_cons]
      simp only
      ring

theorem updateTicks_empty_clip_ok {D : Type} (cur : Animation) (hempty : cur.Frames = [])
    (d0 : D) :
    ∀ (dts : List ℚ) (e : animationEntity D),
      e.AnimationComponent.CurrentAnimation = some cur →
      e.AnimationComponent.Drawables[0]? = some d0 →
      ∃ e1, updateTicks dts e = .ok e1 := by
  intro dts
  induction dts with
  | nil => intro e _ _; exact ⟨e, rfl⟩
  | cons dt rest ih =>
    intro e hcur hd0
    have hd : indexSlice e.AnimationComponent.Drawables 0 = .ok d0 :=
      indexSlice_natCast _ 0 d0 hd0
    rw [updateTicks, updateEntity_empty_clip dt e cur hcur hempty]
    by_cases hge : e.AnimationComponent.change + dt ≥ e.AnimationComponent.Rate
    · rw [if_pos hge]
      simp only [hd]
      exact ih _ (by exact hcur) (by exact hd0)
    · rw [if_neg hge]
      exact ih _ (by exact hcur) (by exact hd0)

/-- C20: for an entity whose current clip is set but has zero frames, `NextFrame` returns
the state unchanged, whether or not the clip loops; after any number of ticks the current
clip is still that clip (never cleared, never replaced by the default), with the cursor and
position unchanged, and with a drawable in slot 0 no tick fails; once the elapsed time has
reached the rate, every further tick with a non-negative delta publishes drawable slot 0
and the unchanged position, and only adds the delta to the elapsed time. -/
theorem empty_clip_never_advances {D : Type} (e : animationEntity D) (cur : Animation)
    (hcur : e.AnimationComponent.CurrentAnimation = some cur) (hempty : cur.Frames = []) :
    NextFrame e.AnimationComponent = .ok e.AnimationComponent ∧
    (∀ dts e1, updateTicks dts e = .ok e1 →
      e1.AnimationComponent.CurrentAnimation = some cur ∧
      e1.AnimationComponent.index = e.AnimationComponent.index ∧
      e1.SpaceComponent = e.SpaceComponent) ∧
    (∀ d0, e.AnimationComponent.Drawables[0]? = some d0 →
      (∀ dts, ∃ e1, updateTicks dts e = .ok e1) ∧
      (e.AnimationComponent.change ≥ e.AnimationComponent.Rate →
        ∀ dts e1, (∀ dt ∈ dts, 0 ≤ dt) → updateTicks dts e = .ok e1 →
          ∀ dt, 0 ≤ dt →
            updateEntity dt e1 =
              .ok { AnimationComponent :=
                      { e1.AnimationComponent with
                        change := e1.AnimationComponent.change + dt }
                    RenderComponent := { Drawable := d0 }
                    SpaceComponent := e.SpaceComponent })) := by
  refine ⟨?_, ?_, ?_⟩
  · simp [NextFrame, hcur, hempty]
  · intro dts e1 h
    obtain ⟨h1, h2, _, _, _, h6⟩ := updateTicks_empty_clip cur hempty dts e e1 hcur h
    exact ⟨h1, h2, h6⟩
  · intro d0 hd0
    refine ⟨fun dts => updateTicks_empty_clip_ok cur hempty d0 dts e hcur hd0, ?_⟩
    intro hrate dts e1 hnonneg h dt hdt
    obtain ⟨h1, _, h3, h4, h5, h6⟩ := updateTicks_empty_clip cur hempty dts e e1 hcur h
    have hsum : 0 ≤ dts.sum := List.sum_nonneg hnonneg
    have hge : e1.AnimationComponent.change + dt ≥ e1.AnimationComponent.Rate := by
      rw [h5, h4]
      linarith
    have hd : indexSlice e1.AnimationComponent.Drawables 0 = .ok d0 := by
      rw [h3]
      exact indexSlice_natCast _ 0 d0 hd0
    rw [updateEntity_empty_clip dt e1 cur h1 hempty, if_pos hge]
    simp only [hd, h6]

theorem empty_clip_never_advances_witness :
    exEmptyEntity.AnimationComponent.CurrentAnimation = some exEmptyClip ∧
    exEmptyClip.Frames = [] ∧
    exEmptyEntity.AnimationComponent.Drawables[0]? = some 10 ∧
    exEmptyEntity.AnimationComponent.change ≥ exEmptyEntity.AnimationComponent.Rate ∧
    NextFrame exEmptyEntity.AnimationComponent = .ok exEmptyEntity.AnimationComponent ∧
    (∀ dts, ∃ e1, updateTicks dts exEmptyEntity = .ok e1) ∧
    updateEntity (1 / 4) exEmptyEntity =
      .ok { AnimationComponent :=
              { exEmptyEntity.AnimationComponent with
                change := exEmptyEntity.AnimationComponent.change + 1 / 4 }
            RenderComponent := { Drawable := 10 }
            SpaceComponent := exEmptyEntity.SpaceComponent } :=
  ⟨rfl, rfl, rfl, by norm_num [exEmptyEntity],
    (empty_clip_never_advances exEmptyEntity exEmptyClip rfl rfl).1,
    ((empty_clip_never_advances exEmptyEntity exEmptyClip rfl rfl).2.2 10 rfl).1,
    ((empty_clip_never_advances exEmptyEntity exEmptyClip rfl rfl).2.2 10 rfl).2
      (by norm_num [exEmptyEntity]) [] exEmptyEntity (by simp) rfl (1 / 4) (by norm_num)⟩

theorem labelPairs_cons (item : McItem) (rest : List McItem) :
    labelPairs (item :: rest) = pairsOf item ++ labelPairs rest := rfl

theorem labelPairs_perm {xs ys : List McItem} (h : xs.Perm ys) :
    (labelPairs xs).Perm (labelPairs ys) := by
  induction h with
  | nil => exact List.Perm.refl _
  | cons x _ ih => exact List.Perm.append_left _ ih
  | swap x y l =>
    simp only [labelPairs_cons, ← List.append_assoc]
    exact List.Perm.append_right _ List.perm_append_comm
  | trans _ _ ih1 ih2 => exact ih1.trans ih2

theorem allFramesOf_perm {xs ys : List McItem} (h : xs.Perm ys) :
    (allFramesOf xs).Perm (allFramesOf ys) := by
  induction h with
  | nil => exact List.Perm.refl _
  | cons x _ ih => exact List.Perm.append_left _ ih
  | swap x y l =>
    simp only [allFramesOf, ← List.append_assoc]
    exact List.Perm.append_right _ List.perm_append_comm
  | trans _ _ ih1 ih2 => exact ih1.trans ih2

theorem labelLoop_ok_of_all (item : McItem) :
    ∀ (labels : List Label) (resource : MovieClipResource),
      (∀ label ∈ labels, ∃ action, buildAction item label = .ok action) →
      ∃ r, labelLoop item labels resource = .ok r := by
  intro labels
  induction labels with
  | nil => intro resource _; exact ⟨resource, rfl⟩
  | cons label rest ih =>
    intro resource hall
    obtain ⟨action, hb⟩ := hall label (List.mem_cons_self _ _)
    rw [labelLoop, hb]
    exact ih _ (fun l hl => hall l (List.mem_cons_of_mem _ hl))

theorem itemLoop_ok_of_all :
    ∀ (items : List McItem) (resource : MovieClipResource),
      (∀ p ∈ labelPairs items, ∃ action, buildAction p.1 p.2 = .ok action) →
      ∃ r, itemLoop items resource = .ok r := by
  intro items
  induction items with
  | nil => intro resource _; exact ⟨resource, rfl⟩
  | cons item rest ih =>
    intro resource hall
    have hlabels : ∀ label ∈ item.Labels, ∃ action, buildAction item label = .ok action := by
      intro label hl
      have := hall (item, label) (by
        simp only [labelPairs, List.mem_append, List.mem_map]
        exact Or.inl ⟨label, hl, rfl⟩)
      exact this
    obtain ⟨r1, hr1⟩ := labelLoop_ok_of_all item item.Labels resource hlabels
    rw [itemLoop, hr1]
    apply ih
    intro p hp
    apply hall
    simp only [labelPairs, List.mem_append]
    exact Or.inr hp

theorem lastIdle_append (xs ys : List (McItem × Label)) :
    lastIdle (xs ++ ys) = (lastIdle ys).or (lastIdle xs) := by
  unfold lastIdle
  rw [List.filter_append, List.getLast?_append]

theorem lastIdle_of_one_group (g : McItem) :
    ∀ items : List McItem,
      (∀ p ∈ labelPairs items, isIdle p = true → p.1 = g) →
      lastIdle (labelPairs items) = if g ∈ items then lastIdle (pairsOf g) else none := by
  intro items
  induction items with
  | nil => intro _; rfl
  | cons item rest ih =>
    intro hall
    have hrest : ∀ p ∈ labelPairs rest, isIdle p = true → p.1 = g := by
      intro p hp
      apply hall
      rw [labelPairs_cons]
      exact List.mem_append_right _ hp
    rw [labelPairs_cons, lastIdle_append, ih hrest]
    by_cases hig : item = g
    · subst hig
      by_cases hmem : item ∈ rest
      · simp only [hmem, if_true, List.mem_cons, true_or]
        cases lastIdle (pairsOf item) <;> rfl
      · simp [hmem]
    · have hnone : lastIdle (pairsOf item) = none := by
        unfold lastIdle
        have : (pairsOf item).filter isIdle = [] := by
          apply List.filter_eq_nil_iff.mpr
          intro p hp hidle
          have hpg := hall p (by rw [labelPairs_cons]; exact List.mem_append_left _ hp) hidle
          simp only [pairsOf, List.mem_map] at hp
          obtain ⟨label, _, rfl⟩ := hp
          exact hig hpg
        rw [this]
        rfl
      have hne : ¬ g = item := fun h => hig h.symm
      rw [hnone]
      simp [hne]

theorem lastIdle_perm {xs ys : List McItem} (h : xs.Perm ys) (hone : oneIdleGroup xs) :
    lastIdle (labelPairs xs) = lastIdle (labelPairs ys) := by
  have hp := labelPairs_perm h
  by_cases hex : ∃ p ∈ labelPairs xs, isIdle p = true
  · obtain ⟨p, hpm, hpi⟩ := hex
    have hx : ∀ q ∈ labelPairs xs, isIdle q = true → q.1 = p.1 :=
      fun q hq hqi => hone q hq p hpm hqi hpi
    have hy : ∀ q ∈ labelPairs ys, isIdle q = true → q.1 = p.1 :=
      fun q hq hqi => hx q (hp.mem_iff.mpr hq) hqi
    rw [lastIdle_of_one_group p.1 xs hx, lastIdle_of_one_group p.1 ys hy]
    simp only [h.mem_iff]
  · have hx : (labelPairs xs).filter isIdle = [] := by
      apply List.filter_eq_nil_iff.mpr
      intro q hq hqi
      exact hex ⟨q, hq, hqi⟩
    have hy : (labelPairs ys).filter isIdle = [] := by
      apply List.filter_eq_nil_iff.mpr
      intro q hq hqi
      exact hex ⟨q, hp.mem_iff.mpr hq, hqi⟩
    simp only [lastIdle, hx, hy]


theorem parseMC_visiting {T : Type} (files : Files T) (url : String) (bytes : List Nat)
    (mc : MovieClip) (visit : List McItem) (hdec : files.Unmarshal bytes = .ok mc) :
    parseMC (visiting files visit) url (.ok bytes) =
      match files.Load (files.texturePath url mc.File) with
      | some msg => .ok (none, some (.load msg))
      | none =>
        match files.Resource (files.texturePath url mc.File) with
        | .error msg => .ok (none, some (.resource (files.texturePath url mc.File) msg))
        | .ok none => .ok (none, some (.notTexture (files.texturePath url mc.File)))
        | .ok (some img) =>
          match itemLoop visit { Actions := [], DefaultAction := none } with
          | .error p => .error p
          | .ok resource =>
            .ok (some { url := url
                        SpriteSheet :=
                          some { texture := img
                                 cells := (allFramesOf visit).filterMap (slotOf mc.Regions) }
                        clips := resource }, none) := by
  simp only [parseMC, visiting, hdec, newSpritesheetFromFile, parseActions,
    MovieClip.AllFrames, spriteRegionsLoop_eq, List.nil_append]
  cases files.Load (files.texturePath url mc.File) with
  | some msg => rfl
  | none =>
    simp only
    cases files.Resource (files.texturePath url mc.File) with
    | error msg => rfl
    | ok tex =>
      cases tex with
      | none => rfl
      | some img =>
        simp only

theorem itemLoop_perm {v1 v2 : List McItem} (h : v1.Perm v2) (r1 : MovieClipResource)
    (h1 : itemLoop v1 { Actions := [], DefaultAction := none } = .ok r1) :
    ∃ r2, itemLoop v2 { Actions := [], DefaultAction := none } = .ok r2 ∧
      r1.Actions.Perm r2.Actions ∧
      (oneIdleGroup v1 → r1.DefaultAction = r2.DefaultAction) := by
  have hp := labelPairs_perm h
  obtain ⟨hall1, hd1⟩ := itemLoop_default v1 _ r1 h1
  obtain ⟨r2, h2⟩ := itemLoop_ok_of_all v2 { Actions := [], DefaultAction := none }
    (fun p hpm => hall1 p (hp.mem_iff.mpr hpm))
  refine ⟨r2, h2, ?_, ?_⟩
  · rw [itemLoop_actions v1 _ r1 h1, itemLoop_actions v2 _ r2 h2]
    exact List.Perm.append_left _ (hp.filterMap clipOf)
  · intro hone
    rw [hd1, (itemLoop_default v2 _ r2 h2).2]
    simp only [lastIdleOr, lastIdle_perm h hone]

theorem itemLoop_perm_error {v1 v2 : List McItem} (h : v1.Perm v2)
    (h1 : ∃ p, itemLoop v1 { Actions := [], DefaultAction := none } = .error p) :
    ∃ p, itemLoop v2 { Actions := [], DefaultAction := none } = .error p := by
  cases h2 : itemLoop v2 { Actions := [], DefaultAction := none } with
  | error p => exact ⟨p, rfl⟩
  | ok r2 =>
    obtain ⟨r1, hr1, _⟩ := itemLoop_perm h.symm r2 h2
    obtain ⟨p, hp⟩ := h1
    rw [hr1] at hp
    cases hp

theorem oneIdleGroup_perm {v1 v2 : List McItem} (h : v1.Perm v2) (hone : oneIdleGroup v1) :
    oneIdleGroup v2 := by
  have hp := labelPairs_perm h
  intro p hpm q hqm hpi hqi
  exact hone p (hp.mem_iff.mpr hpm) q (hp.mem_iff.mpr hqm) hpi hqi

theorem perm_eq_of_length_le_one {α : Type} {xs ys : List α} (h : xs.Perm ys)
    (hlen : ys.length ≤ 1) : xs = ys := by
  match ys, hlen with
  | [], _ => exact h.eq_nil
  | [a], _ => exact List.perm_singleton.mp h

/-- C18 (amended): two runs of `parseMC` on the same payload bytes with the same
collaborators, visiting the decoded groups in any two orders: return the same error if one
returns an error, both panic if one does, and if one returns a resource so does the other,
with the same url and texture, the same region slots and the same clips up to reordering,
and the same default clip whenever all labels containing `"idle"` belong to one group; for
a descriptor with at most one group the two outcomes are identical. -/
theorem parseMC_deterministic_up_to_group_order {T : Type} (files : Files T) (url : String)
    (bytes : List Nat) (mc : MovieClip) (v1 v2 : List McItem)
    (hdec : files.Unmarshal bytes = .ok mc) (h1 : v1.Perm mc.Mc) (h2 : v2.Perm mc.Mc) :
    (∀ err, parseMC (visiting files v1) url (.ok bytes) = .ok (none, some err) →
      parseMC (visiting files v2) url (.ok bytes) = .ok (none, some err)) ∧
    ((∃ p, parseMC (visiting files v1) url (.ok bytes) = .error p) →
      ∃ p, parseMC (visiting files v2) url (.ok bytes) = .error p) ∧
    (∀ res1, parseMC (visiting files v1) url (.ok bytes) = .ok (some res1, none) →
      ∃ res2 sheet1 sheet2,
        parseMC (visiting files v2) url (.ok bytes) = .ok (some res2, none) ∧
        res1.url = res2.url ∧
        res1.SpriteSheet = some sheet1 ∧ res2.SpriteSheet = some sheet2 ∧
        sheet1.texture = sheet2.texture ∧ sheet1.cells.Perm sheet2.cells ∧
        res1.clips.Actions.Perm res2.clips.Actions ∧
        (oneIdleGroup mc.Mc → res1.clips.DefaultAction = res2.clips.DefaultAction)) ∧
    (mc.Mc.length ≤ 1 →
      parseMC (visiting files v1) url (.ok bytes) =
        parseMC (visiting files v2) url (.ok bytes)) := by
  have h12 : v1.Perm v2 := h1.trans h2.symm
  rw [parseMC_visiting files url bytes mc v1 hdec, parseMC_visiting files url bytes mc v2 hdec]
  refine ⟨?_, ?_, ?_, ?_⟩
  · intro err herr
    cases hL : files.Load (files.texturePath url mc.File) with
    | some msg => simpa only [hL] using herr
    | none =>
      simp only [hL] at herr ⊢
      cases hR : files.Resource (files.texturePath url mc.File) with
      | error msg => simpa only [hR] using herr
      | ok tex =>
        cases tex with
        | none => simpa only [hR] using herr
        | some img =>
          simp only [hR] at herr
          cases hI : itemLoop v1 { Actions := [], DefaultAction := none } with
          | error p => simp [hI] at herr
          | ok r => simp [hI] at herr
  · rintro ⟨p, hp⟩
    cases hL : files.Load (files.texturePath url mc.File) with
    | some msg => simp [hL] at hp
    | none =>
      simp only [hL] at hp ⊢
      cases hR : files.Resource (files.texturePath url mc.File) with
      | error msg => simp [hR] at hp
      | ok tex =>
        cases tex with
        | none => simp [hR] at hp
        | some img =>
          simp only [hR] at hp ⊢
          cases hI : itemLoop v1 { Actions := [], DefaultAction := none } with
          | ok r => simp [hI] at hp
          | error q =>
            obtain ⟨q2, hq2⟩ := itemLoop_perm_error h12 ⟨q, hI⟩
            exact ⟨q2, by simp only [hq2]⟩
  · intro res1 hres
    cases hL : files.Load (files.texturePath url mc.File) with
    | some msg => simp [hL] at hres
    | none =>
      simp only [hL] at hres ⊢
      cases hR : files.Resource (files.texturePath url mc.File) with
      | error msg => simp [hR] at hres
      | ok tex =>
        cases tex with
        | none => simp [hR] at hres
        | some img =>
          simp only [hR] at hres ⊢
          cases hI : itemLoop v1 { Actions := [], DefaultAction := none } with
          | error q => simp [hI] at hres
          | ok r1 =>
            simp only [hI, Except.ok.injEq, Prod.mk.injEq, Option.some.injEq, and_true] at hres
            subst hres
            obtain ⟨r2, hr2, hact, hdef⟩ := itemLoop_perm h12 r1 hI
            refine ⟨{ url := url
                      SpriteSheet :=
                        some { texture := img
                               cells := (allFramesOf v2).filterMap (slotOf mc.Regions) }
                      clips := r2 },
              { texture := img, cells := (allFramesOf v1).filterMap (slotOf mc.Regions) },
              { texture := img, cells := (allFramesOf v2).filterMap (slotOf mc.Regions) },
              by simp only [hr2], rfl, rfl, rfl, rfl, ?_, hact, ?_⟩
            · exact (allFramesOf_perm h12).filterMap _
            · intro hone
              exact hdef (oneIdleGroup_perm h1.symm hone)
  · intro hlen
    have : v1 = v2 := by
      rw [perm_eq_of_length_le_one h1 hlen, perm_eq_of_length_le_one h2 hlen]
    rw [this]

/-- C18 as stated fails: two runs on the same payload and collaborators that visit the two
groups of `exMcIdle` in the two possible orders both return a resource, but the default
clip is the clip of `"run_idle"` in one run and the clip of `"idle"` in the other, and the
clip lists are in different orders. -/
theorem parseMC_default_depends_on_group_order :
    exMcIdleSwapped.Perm exMcIdle.Mc ∧
    (exFiles exMcIdle).Unmarshal [] = .ok exMcIdle ∧
    parseMC (visiting (exFiles exMcIdle) exMcIdle.Mc) "hero.mc.json" (.ok []) =
      .ok (some { url := "hero.mc.json"
                  SpriteSheet := some { texture := 7, cells := [] }
                  clips := exIdleResource }, none) ∧
    parseMC (visiting (exFiles exMcIdle) exMcIdleSwapped) "hero.mc.json" (.ok []) =
      .ok (some { url := "hero.mc.json"
                  SpriteSheet := some { texture := 7, cells := [] }
                  clips := exIdleResourceSwapped }, none) ∧
    exIdleResource.DefaultAction = some exRunIdleClip ∧
    exIdleResourceSwapped.DefaultAction = some exIdleClip ∧
    exIdleResource.DefaultAction ≠ exIdleResourceSwapped.DefaultAction ∧
    exIdleResource.Actions ≠ exIdleResourceSwapped.Actions := by
  refine ⟨List.Perm.swap _ _ _, rfl, rfl, rfl, rfl, rfl, by decide, by decide⟩

theorem parseMC_deterministic_up_to_group_order_witness :
    (exFiles exMcOneIdle).Unmarshal [] = .ok exMcOneIdle ∧
    exMcOneIdle.Mc.Perm exMcOneIdle.Mc ∧ exMcOneIdleSwapped.Perm exMcOneIdle.Mc ∧
    oneIdleGroup exMcOneIdle.Mc ∧
    (∀ res1, parseMC (visiting (exFiles exMcOneIdle) exMcOneIdle.Mc) "hero.mc.json" (.ok []) =
        .ok (some res1, none) →
      ∃ res2 sheet1 sheet2,
        parseMC (visiting (exFiles exMcOneIdle) exMcOneIdleSwapped) "hero.mc.json" (.ok []) =
          .ok (some res2, none) ∧
        res1.url = res2.url ∧
        res1.SpriteSheet = some sheet1 ∧ res2.SpriteSheet = some sheet2 ∧
        sheet1.texture = sheet2.texture ∧ sheet1.cells.Perm sheet2.cells ∧
        res1.clips.Actions.Perm res2.clips.Actions ∧
        res1.clips.DefaultAction = res2.clips.DefaultAction) ∧
    exSkipMc.Mc.length ≤ 1 ∧
    parseMC (visiting (exFiles exSkipMc) exSkipMc.Mc) "hero.mc.json" (.ok []) =
      parseMC (visiting (exFiles exSkipMc) exSkipMc.Mc) "hero.mc.json" (.ok []) :=
  ⟨rfl, List.Perm.refl _, List.Perm.swap _ _ _, by decide,
    fun res1 hres =>
      let ⟨res2, sheet1, sheet2, hp, hu, hs1, hs2, ht, hc, ha, hd⟩ :=
        (parseMC_deterministic_up_to_group_order (exFiles exMcOneIdle) "hero.mc.json" []
          exMcOneIdle exMcOneIdle.Mc exMcOneIdleSwapped rfl (List.Perm.refl _)
          (List.Perm.swap _ _ _)).2.2.1 res1 hres
      ⟨res2, sheet1, sheet2, hp, hu, hs1, hs2, ht, hc, ha, hd (by decide)⟩,
    by decide,
    (parseMC_deterministic_up_to_group_order (exFiles exSkipMc) "hero.mc.json" []
      exSkipMc exSkipMc.Mc exSkipMc.Mc rfl (List.Perm.refl _) (List.Perm.refl _)).2.2.2
      (by decide)⟩

end Engo
